import Mathlib

/-!
# The resty HTTP client core (`src/client.go`)

A shallow embedding of the request pipeline of `client.go`: the data model
(`Client`, `Request`, `Response`), `Client.execute`, `Request.execute` and the
verb methods, the setters, the redirect policies, the content-type
classifiers and the debug rendering of a request body; and of the member-URL
handling in the cleanup loop of `deleteRepo` in `federated.go`.

Conventions of the embedding.

* Go pointers to mutable structs become explicit state passing: a function
  that receives `*Client` / `*Request` / `*Response` returns the new value
  of what it may have written.
* A Go `error` is `Option Error`; `none` is the nil error.
* What the pipeline does to the outside world (middleware entries entered,
  the transport call, the body read) is recorded in a list of `Event`s,
  oldest first.
-/

namespace Resty

/-! ## Data model -/

/-- A Go `error` value, identified by its message. -/
structure Error where
  msg : String
  deriving DecidableEq, Repr

/-- `url.Values` and `http.Header`: a multi-valued string map. -/
abbrev Values := List (String × List String)

/-- Type `User` of `client.go`. -/
structure User where
  Username : String
  Password : String
  deriving DecidableEq, Repr

/-- The part of `http.Cookie` the client stores. -/
structure Cookie where
  Name : String
  Value : String
  deriving DecidableEq, Repr

/-- A Go `interface{}` value, by the shape `reflect.Kind` reports. -/
inductive Value where
  | nil
  | str (s : String)
  | bytes (b : List Nat)
  | struct (fields : List (String × String))
  | map (entries : List (String × String))
  | int (i : Int)
  | ptr (target : Value)
  deriving DecidableEq, Repr

/-- The transport-level request (`*http.Request`) a before-request entry
renders into `Request.RawRequest`. -/
structure HttpRequest where
  Method : String
  URL : String
  Header : Values
  Body : List Nat
  deriving DecidableEq, Repr

/-- The transport-level reply (`*http.Response`). `Body` is the outcome of
reading the reply's body stream to its end (`ioutil.ReadAll(resp.Body)`). -/
structure HttpResponse where
  Status : String
  StatusCode : Int
  Header : Values
  Body : Except Error (List Nat)

/-- Type `Request` of `client.go`. The back-reference `client` is not a
field: the owning client is passed next to the request. `bodyBuf` is the
content of the buffer, `none` when the pointer is nil. -/
structure Request where
  Url : String
  Method : String
  QueryParam : Values
  FormData : Values
  Header : Values
  UserInfo : Option User
  Token : String
  Body : Value
  Result : Value
  Error : Value
  Time : Nat
  RawRequest : Option HttpRequest
  bodyBuf : Option (List Nat)
  isMultiPart : Bool
  isFormData : Bool
  setContentLength : Bool

/-- Type `Response` of `client.go`. `Request` is the request the response
points to, in its current state. -/
structure Response where
  Body : List Nat
  ReceivedAt : Nat
  Request : Request
  RawResponse : HttpResponse

/-- A redirect policy: the `CheckRedirect` function of `http.Client`, from the
upcoming request and the requests made so far (oldest first) to an error. -/
abbrev RedirectPolicy := HttpRequest → List HttpRequest → Option Error

/-- The fields of type `Client` other than the two middleware chains.
`CheckRedirect` is `httpClient.CheckRedirect`; the logger and the transport
handle are outside the embedding. -/
structure ClientConfig where
  HostUrl : String
  QueryParam : Values
  FormData : Values
  Header : Values
  UserInfo : Option User
  Token : String
  Cookies : List Cookie
  Error : Value
  Debug : Bool
  CheckRedirect : Option RedirectPolicy
  setContentLength : Bool
  isHTTPMode : Bool

/-- A before-request entry, `func(*Client, *Request) error`: it may write to
the client and to the request, and returns an error or nil. -/
abbrev RequestMiddleware := ClientConfig × Request → (ClientConfig × Request) × Option Error

/-- An after-response entry, `func(*Client, *Response) error`: it may write to
the client and to the response (and, through it, to the request). -/
abbrev ResponseMiddleware := ClientConfig × Response → (ClientConfig × Response) × Option Error

/-- Type `Client` of `client.go`: its configuration and the two chains. The
entries of a chain see the configuration; `range` in `execute` iterates over
the chain as it is when the loop starts. -/
structure Client where
  config : ClientConfig
  beforeRequest : List RequestMiddleware
  afterResponse : List ResponseMiddleware

/-- The outside world of one `execute` call: the two readings of the clock
(`time.Now()`) and the transport (`c.httpClient.Do(req.RawRequest)` with
`c.transport` installed), which answers with a reply or with an error. A call
in which `Do` panics instead of returning (a nil `RawRequest`) has no
counterpart here. -/
structure World where
  dispatchTime : Nat
  receiveTime : Nat
  Do : ClientConfig → Option HttpRequest → Except Error HttpResponse

/-- What one `execute` call does that an observer can see. -/
inductive Event where
  | before (i : Nat)
  | transport
  | readBody
  | after (j : Nat)
  deriving DecidableEq, Repr

/-! ## `Client.execute` -/

/-- The loop `for _, f := range chain { err = f(...); if err != nil { stop } }`
shared by both chains of `execute`, from entry number `i` on: the state the
entries left, the error of the entry that stopped the loop (nil when none
did), and the events, one per entry entered. -/
def runChain {σ : Type} (tag : Nat → Event) :
    List (σ → σ × Option Error) → Nat → σ → List Event → σ × Option Error × List Event
  | [], _, s, tr => (s, none, tr)
  | f :: fs, i, s, tr =>
    match f s with
    | (s', some e) => (s', some e, tr ++ [tag i])
    | (s', none) => runChain tag fs (i + 1) s' (tr ++ [tag i])

/-- The outcome of `execute`: the returned pair `(*Response, error)`, the
client and the request as the call left them, and the events of the call. -/
structure Outcome where
  resp : Option Response
  err : Option Error
  client : ClientConfig
  req : Request
  trace : List Event

/-- Method `(c *Client) execute(req *Request) (*Response, error)`. -/
def Client.execute (w : World) (c : Client) (req : Request) : Outcome :=
  -- Apply Request middleware
  match runChain Event.before c.beforeRequest 0 (c.config, req) [] with
  | ((cfg, req), some err, tr) =>
    { resp := none, err := some err, client := cfg, req := req, trace := tr }
  | ((cfg, req), none, tr) =>
    let req := { req with Time := w.dispatchTime }
    match w.Do cfg req.RawRequest with
    | .error err =>
      { resp := none, err := some err, client := cfg, req := req,
        trace := tr ++ [Event.transport] }
    | .ok resp =>
      let response : Response :=
        { Body := [], Request := req, ReceivedAt := w.receiveTime, RawResponse := resp }
      match resp.Body with
      | .error err =>
        { resp := none, err := some err, client := cfg, req := req,
          trace := tr ++ [Event.transport, Event.readBody] }
      | .ok body =>
        let response := { response with Body := body }
        -- Apply Response middleware
        match runChain Event.after c.afterResponse 0 (cfg, response)
            (tr ++ [Event.transport, Event.readBody]) with
        | ((cfg, response), err, tr) =>
          { resp := some response, err := err, client := cfg, req := response.Request,
            trace := tr }

/-! ## `Request.execute` and the verb methods -/

def GET : String := "GET"
def POST : String := "POST"
def PUT : String := "PUT"
def DELETE : String := "DELETE"
def PATCH : String := "PATCH"
def HEAD : String := "HEAD"
def OPTIONS : String := "OPTIONS"

/-- Method `(r *Request) execute(method, url string) (*Response, error)`; `c`
is `r.client`. -/
def Request.execute (w : World) (c : Client) (r : Request) (method url : String) : Outcome :=
  if r.isMultiPart && !(method == POST || method == PUT) then
    { resp := none,
      err := some ⟨"File upload is not allowed in HTTP verb [" ++ method ++ "]"⟩,
      client := c.config, req := r, trace := [] }
  else
    c.execute w { r with Method := method, Url := url }

def Request.Get (w : World) (c : Client) (r : Request) (url : String) : Outcome :=
  r.execute w c GET url

def Request.Post (w : World) (c : Client) (r : Request) (url : String) : Outcome :=
  r.execute w c POST url

def Request.Put (w : World) (c : Client) (r : Request) (url : String) : Outcome :=
  r.execute w c PUT url

def Request.Delete (w : World) (c : Client) (r : Request) (url : String) : Outcome :=
  r.execute w c DELETE url

def Request.Patch (w : World) (c : Client) (r : Request) (url : String) : Outcome :=
  r.execute w c PATCH url

def Request.Head (w : World) (c : Client) (r : Request) (url : String) : Outcome :=
  r.execute w c HEAD url

def Request.Options (w : World) (c : Client) (r : Request) (url : String) : Outcome :=
  r.execute w c OPTIONS url

/-! ## Redirect policies -/

/-- Function `NoRedirectPolicy(req, via)`. -/
def NoRedirectPolicy : RedirectPolicy :=
  fun _req _via => some ⟨"Auto redirect is disabled"⟩

/-- Function `FlexibleRedirectPolicy(noOfRedirect int)`; `%d` renders the
integer in decimal. -/
def FlexibleRedirectPolicy (noOfRedirect : Int) : RedirectPolicy :=
  fun _req via =>
    if (via.length : Int) ≥ noOfRedirect then
      some ⟨"Stopped after " ++ toString noOfRedirect ++ " redirects"⟩
    else
      none

/-! ## Content-type classification

`jsonCheck` and `xmlCheck` are compiled by Go's `regexp` package. The part
of its pattern language the patterns of `client.go` use is embedded here: a
sequence of literal characters and bracketed character classes, optionally
inside a case-insensitive group `(?i:...)`. Inside brackets every character
stands for itself, `|` included. A subject string is the sequence of code
points the matcher decodes from it.
-/

/-- One position of a pattern: a literal character or a bracketed class. -/
inductive Atom where
  | lit (c : Char)
  | cls (members : List Char)
  deriving DecidableEq, Repr

/-- A compiled pattern: its positions, and whether it sits in `(?i:...)`. -/
structure Regexp where
  foldCase : Bool
  atoms : List Atom
  deriving DecidableEq, Repr

/-- Reads the positions of a pattern up to its end or up to a closing
parenthesis. `cls` holds the members read so far of the class being read, in
reverse. Characters with a meaning this embedding does not cover are refused. -/
def parseAtoms : List Char → Option (List Char) → List Atom → Option (List Atom × List Char)
  | [], none, acc => some (acc.reverse, [])
  | [], some _, _ => none
  | c :: rest, none, acc =>
    if c = '[' then parseAtoms rest (some []) acc
    else if c = ')' then some (acc.reverse, c :: rest)
    else if c.isAlphanum || c = '/' then parseAtoms rest none (Atom.lit c :: acc)
    else none
  | c :: rest, some cls, acc =>
    if c = ']' then
      if cls = [] then none else parseAtoms rest none (Atom.cls cls.reverse :: acc)
    else if c.isAlphanum || c = '/' || c = '|' then parseAtoms rest (some (c :: cls)) acc
    else none

/-- The subset of `regexp.Compile` described above. -/
def Compile (pattern : String) : Option Regexp :=
  match pattern.toList with
  | '(' :: '?' :: 'i' :: ':' :: body =>
    match parseAtoms body none [] with
    | some (atoms, [')']) => some ⟨true, atoms⟩
    | _ => none
  | body =>
    match parseAtoms body none [] with
    | some (atoms, []) => some ⟨false, atoms⟩
    | _ => none

/-- `regexp.MustCompile` panics on a pattern that does not compile. The
patterns of `client.go` compile, so the alternative is never taken. -/
def MustCompile (pattern : String) : Regexp :=
  (Compile pattern).getD ⟨false, []⟩

/-- The characters that `(?i)` lets an ASCII pattern character stand for:
its orbit under Unicode simple case folding. Besides the two cases of a
letter, `k` also folds with U+212A (Kelvin sign) and `s` with U+017F (long s). -/
def simpleFoldOrbit (c : Char) : List Char :=
  if c.isAlpha then
    [c.toLower, c.toUpper]
      ++ (if c.toLower = 'k' then [Char.ofNat 0x212A] else [])
      ++ (if c.toLower = 's' then [Char.ofNat 0x017F] else [])
  else
    [c]

/-- Whether a position of a pattern accepts the character `d`. -/
def Atom.accepts (foldCase : Bool) : Atom → Char → Bool
  | Atom.lit c, d => if foldCase then decide (d ∈ simpleFoldOrbit c) else d == c
  | Atom.cls members, d =>
    if foldCase then members.any (fun c => decide (d ∈ simpleFoldOrbit c))
    else members.contains d

/-- Whether the pattern matches at the start of the subject. -/
def matchHere (foldCase : Bool) : List Atom → List Char → Bool
  | [], _ => true
  | _ :: _, [] => false
  | a :: as, d :: ds => a.accepts foldCase d && matchHere foldCase as ds

/-- Whether the pattern matches somewhere in the subject (it is unanchored). -/
def matchFrom (re : Regexp) : List Char → Bool
  | [] => matchHere re.foldCase re.atoms []
  | d :: ds => matchHere re.foldCase re.atoms (d :: ds) || matchFrom re ds

/-- Method `(re *Regexp) MatchString(s string) bool`. -/
def Regexp.MatchString (re : Regexp) (s : String) : Bool :=
  matchFrom re s.toList

def plainTextCheck : Regexp := MustCompile "(?i:text/plain)"
def jsonCheck : Regexp := MustCompile "(?i:[application|text]/json)"
def xmlCheck : Regexp := MustCompile "(?i:[application|text]/xml)"

/-- Function `IsJsonType(ct string) bool`. -/
def IsJsonType (ct : String) : Bool :=
  jsonCheck.MatchString ct

/-- Function `IsXmlType(ct string) bool`. -/
def IsXmlType (ct : String) : Bool :=
  xmlCheck.MatchString ct

/-! ## Setters of `Client` and `Request` -/

/-- The value list a `url.Values` map holds under `key` (`v[key]`), empty when
the key is absent. -/
def valuesAt : Values → String → List String
  | [], _ => []
  | (k, vs) :: rest, key => if k = key then vs else valuesAt rest key

/-- The map assignment `v[key] = vs`. -/
def assign : Values → String → List String → Values
  | [], key, vs => [(key, vs)]
  | (k, old) :: rest, key, vs =>
    if k = key then (k, vs) :: rest else (k, old) :: assign rest key vs

/-- Method `url.Values.Add`: `v[key] = append(v[key], value)`. -/
def Values.Add (v : Values) (key value : String) : Values :=
  assign v key (valuesAt v key ++ [value])

/-- Method `url.Values.Set`: `v[key] = []string{value}`. -/
def Values.Set (v : Values) (key value : String) : Values :=
  assign v key [value]

/-- Method `(c *Client) SetQueryParam(param, value string)`. -/
def Client.SetQueryParam (c : Client) (param value : String) : Client :=
  { c with config := { c.config with QueryParam := Values.Add c.config.QueryParam param value } }

/-- Method `(c *Client) SetQueryParams(params map[string]string)`; `params`
lists the entries of the map in the order `range` visits them. -/
def Client.SetQueryParams (c : Client) (params : List (String × String)) : Client :=
  params.foldl (fun c pv =>
    { c with config := { c.config with QueryParam := Values.Add c.config.QueryParam pv.1 pv.2 } })
    c

/-- Method `(c *Client) SetFormData(data map[string]string)`; `data` lists the
entries of the map in the order `range` visits them. -/
def Client.SetFormData (c : Client) (data : List (String × String)) : Client :=
  data.foldl (fun c kv =>
    { c with config := { c.config with FormData := Values.Add c.config.FormData kv.1 kv.2 } })
    c

/-- Method `(c *Client) SetContentLength(l bool)`. -/
def Client.SetContentLength (c : Client) (l : Bool) : Client :=
  { c with config := { c.config with setContentLength := l } }

/-- Method `(c *Client) SetRedirectPolicy(policy)`. -/
def Client.SetRedirectPolicy (c : Client) (policy : RedirectPolicy) : Client :=
  { c with config := { c.config with CheckRedirect := some policy } }

/-- The built-in middleware entries that `client.go` names and another file
of the package defines. -/
structure Builtins where
  requestLogger : RequestMiddleware
  responseLogger : ResponseMiddleware
  parseResponseBody : ResponseMiddleware

/-- A run-time panic of the Go program. -/
inductive Panic where
  | indexOutOfRange (index : Int) (length : Nat)
  | interfaceConversion
  | nilDereference
  | sliceBoundsOutOfRange (index : Int) (length : Nat)
  deriving DecidableEq, Repr

/-- Method `(c *Client) OnBeforeRequest(m)`: the entry at index
`len(c.beforeRequest)-1` is overwritten by `m`, then `requestLogger` is
appended. Indexing panics when the index is out of range. -/
def Client.OnBeforeRequest (b : Builtins) (c : Client) (m : RequestMiddleware) :
    Except Panic Client :=
  let index : Int := (c.beforeRequest.length : Int) - 1
  if index < 0 ∨ index ≥ (c.beforeRequest.length : Int) then
    Except.error (Panic.indexOutOfRange index c.beforeRequest.length)
  else
    Except.ok { c with beforeRequest := c.beforeRequest.set index.toNat m ++ [b.requestLogger] }

/-- Method `(c *Client) OnAfterResponse(m)`. -/
def Client.OnAfterResponse (c : Client) (m : ResponseMiddleware) : Client :=
  { c with afterResponse := c.afterResponse ++ [m] }

/-- Method `(c *Client) SetMode(mode string)`. -/
def Client.SetMode (b : Builtins) (c : Client) (mode : String) : Client :=
  if mode = "http" then
    { c with
      config := { c.config with
        isHTTPMode := true, CheckRedirect := some (FlexibleRedirectPolicy 10) },
      afterResponse := [b.responseLogger] }
  else -- RESTful
    { c with
      config := { c.config with isHTTPMode := false, CheckRedirect := some NoRedirectPolicy },
      afterResponse := [b.responseLogger, b.parseResponseBody] }

/-- Method `(c *Client) SetHTTPMode()`. -/
def Client.SetHTTPMode (b : Builtins) (c : Client) : Client :=
  c.SetMode b "http"

/-- Method `(c *Client) SetRESTMode()`. -/
def Client.SetRESTMode (b : Builtins) (c : Client) : Client :=
  c.SetMode b "rest"

/-- Method `(r *Request) SetQueryParam(param, value string)`. -/
def Request.SetQueryParam (r : Request) (param value : String) : Request :=
  { r with QueryParam := Values.Add r.QueryParam param value }

/-- Method `(r *Request) SetQueryParams(params map[string]string)`. -/
def Request.SetQueryParams (r : Request) (params : List (String × String)) : Request :=
  params.foldl (fun r pv => { r with QueryParam := Values.Add r.QueryParam pv.1 pv.2 }) r

/-- Method `(r *Request) SetFormData(data map[string]string)`. -/
def Request.SetFormData (r : Request) (data : List (String × String)) : Request :=
  data.foldl (fun r kv => { r with FormData := Values.Add r.FormData kv.1 kv.2 }) r

/-- Method `(r *Request) SetFile(param, filePath string)`. -/
def Request.SetFile (r : Request) (param filePath : String) : Request :=
  { r with FormData := Values.Set r.FormData ("@" ++ param) filePath, isMultiPart := true }

/-- Method `(r *Request) SetFiles(files map[string]string)`. -/
def Request.SetFiles (r : Request) (files : List (String × String)) : Request :=
  { files.foldl (fun r ffp => { r with FormData := Values.Set r.FormData ("@" ++ ffp.1) ffp.2 }) r
    with isMultiPart := true }

/-- Method `(r *Request) SetContentLength(l bool)`. -/
def Request.SetContentLength (r : Request) (_l : Bool) : Request :=
  { r with setContentLength := true }

/-! ## Content negotiation -/

/-- The kinds of `reflect.Kind` that the values of `Value` have. -/
inductive Kind where
  | Invalid
  | Int
  | Map
  | Ptr
  | Slice
  | String
  | Struct
  deriving DecidableEq, Repr

/-- The kind `reflect.ValueOf(v).Kind()` of a value. -/
def Value.Kind : Value → Kind
  | Value.nil => Kind.Invalid
  | Value.str _ => Kind.String
  | Value.bytes _ => Kind.Slice
  | Value.struct _ => Kind.Struct
  | Value.map _ => Kind.Map
  | Value.int _ => Kind.Int
  | Value.ptr _ => Kind.Ptr

/-- The type assertion `body.([]byte)`, which panics on a value of another
type. -/
def assertBytes : Value → Except Panic (List Nat)
  | Value.bytes b => Except.ok b
  | _ => Except.error Panic.interfaceConversion

def plainTextType : String := "text/plain; charset=utf-8"
def jsonContentType : String := "application/json; charset=utf-8"
def formContentType : String := "application/x-www-form-urlencoded"

/-- Function `DetectContentType(body interface{}) string`; `sniff` is
`http.DetectContentType`. -/
def DetectContentType (sniff : List Nat → String) (body : Value) : Except Panic String :=
  match body.Kind with
  | Kind.Struct | Kind.Map => Except.ok jsonContentType
  | Kind.String => Except.ok plainTextType
  | _ => (assertBytes body).map sniff

/-- The decoders `json.Unmarshal` and `xml.Unmarshal`: from the bytes and the
destination to the destination as the decoder leaves it and an error. -/
structure Decoders where
  jsonUnmarshal : List Nat → Value → Value × Option Error
  xmlUnmarshal : List Nat → Value → Value × Option Error

/-- Function `Unmarshal(ct string, b []byte, d interface{}) (err error)`, with
the destination `d` as the call leaves it. -/
def Unmarshal (dec : Decoders) (ct : String) (b : List Nat) (d : Value) : Value × Option Error :=
  if IsJsonType ct then
    dec.jsonUnmarshal b d
  else if IsXmlType ct then
    dec.xmlUnmarshal b d
  else
    (d, none)

/-! ## The debug rendering of a request body -/

/-- Function `IsMarshalRequired(body interface{}) bool`. -/
def IsMarshalRequired (body : Value) : Bool :=
  body.Kind == Kind.Struct || body.Kind == Kind.Map

/-- The canonical header key `http.CanonicalHeaderKey("Content-Type")`. -/
def hdrContentTypeKey : String := "Content-Type"

/-- Method `http.Header.Get` at a key in canonical form: the first value
under the key, the empty string when there is none. -/
def headerGet (h : Values) (key : String) : String :=
  (valuesAt h key).headD ""

/-- The standard-library functions `getRequestBodyString` calls.
`jsonMarshalIndent` and `xmlMarshalIndent` are the bytes returned by
`MarshalIndent(&v, "", "   ")`, nil (`none`) on an error; `jsonIndent` is the
content of the buffer `json.Indent` fills, `none` when it returns an error;
`base64` is `base64.StdEncoding.EncodeToString`; `bytesOf` and `stringOf` are
the conversions `[]byte(s)` and `string(b)`. -/
structure Renderers where
  jsonMarshalIndent : Value → Option (List Nat)
  xmlMarshalIndent : Value → Option (List Nat)
  jsonIndent : List Nat → Option (List Nat)
  base64 : List Nat → String
  bytesOf : String → List Nat
  stringOf : List Nat → String

/-- Function `getRequestBodyString(r *Request) (body string)`. -/
def getRequestBodyString (rd : Renderers) (r : Request) : Except Panic String :=
  let body := "***** NO CONTENT *****"
  if r.Method = POST ∨ r.Method = PUT ∨ r.Method = PATCH then
    -- multipart/form-data OR form data
    if r.isMultiPart || r.isFormData then
      match r.bodyBuf with
      | none => Except.error Panic.nilDereference
      | some buf => Except.ok (rd.stringOf buf)
    -- request body data
    else if r.Body ≠ Value.nil then
      let contentType := headerGet r.Header hdrContentTypeKey
      let isMarshal := IsMarshalRequired r.Body
      let rendered : String × Option (List Nat) :=
        if IsJsonType contentType && isMarshal then
          (body, rd.jsonMarshalIndent r.Body)
        else if IsXmlType contentType && isMarshal then
          (body, rd.xmlMarshalIndent r.Body)
        else
          match r.Body with
          | Value.str b =>
            (body, if IsJsonType contentType then rd.jsonIndent (rd.bytesOf b) else none)
          | Value.bytes b => (rd.base64 b, none)
          | _ => (body, none)
      match rendered.2 with
      | some prtBodyBytes => Except.ok (rd.stringOf prtBodyBytes)
      | none => Except.ok rendered.1
    else
      Except.ok body
  else
    Except.ok body

/-! ## The federated repository resource (`federated.go`)

A Go string is the list of its characters here; the separators the code
searches for are ASCII, so a match sits at the same place in the bytes and in
the characters. -/

/-- The index of the last instance of `substr` in `s` that starts below
position `n`, or `-1`. -/
def lastIndexBelow (s substr : List Char) : Nat → Int
  | 0 => -1
  | n + 1 => if substr.isPrefixOf (s.drop n) then (n : Int) else lastIndexBelow s substr n

/-- Function `strings.LastIndex(s, substr)`: the index of the last instance
of `substr` in `s`, or `-1` when there is none. -/
def LastIndex (s substr : String) : Int :=
  lastIndexBelow s.toList substr.toList (s.toList.length + 1)

/-- The slice expression `s[low:]`, which panics when `low` is out of range. -/
def sliceFrom (s : String) (low : Int) : Except Panic String :=
  if low < 0 ∨ low > (s.toList.length : Int) then
    Except.error (Panic.sliceBoundsOutOfRange low s.toList.length)
  else
    Except.ok ⟨s.toList.drop low.toNat⟩

/-- The slice expression `s[:high]`, which panics when `high` is out of
range. -/
def sliceTo (s : String) (high : Int) : Except Panic String :=
  if high < 0 ∨ high > (s.toList.length : Int) then
    Except.error (Panic.sliceBoundsOutOfRange high s.toList.length)
  else
    Except.ok ⟨s.toList.take high.toNat⟩

/-- What the cleanup loop of `deleteRepo` derives from a member URL: the base
URL it gives to `SetBaseURL` and the repository key it gives to
`SetPathParam("key", ...)`. -/
structure MemberTarget where
  memberUrl : String
  repoName : String
  deriving DecidableEq, Repr

/-- The first statements of the body of the cleanup loop of `deleteRepo`,
from the member URL to the base URL and repository key of the delete call. -/
def deleteRepo.target (memberUrl : String) : Except Panic MemberTarget :=
  match sliceFrom memberUrl (LastIndex memberUrl "/" + 1) with
  | Except.error p => Except.error p
  | Except.ok repoName =>
    let idx := LastIndex memberUrl "/artifactory"
    if idx ≠ -1 then
      match sliceTo memberUrl idx with
      | Except.error p => Except.error p
      | Except.ok memberUrl => Except.ok { memberUrl := memberUrl, repoName := repoName }
    else
      Except.ok { memberUrl := memberUrl, repoName := repoName }

/-! ## Vocabulary of the statements -/

/-- The state a chain reaches when its first `k` entries run in order from
`s`. -/
def stateAfter {σ : Type} (fs : List (σ → σ × Option Error)) (k : Nat) (s : σ) : σ :=
  (fs.take k).foldl (fun s f => (f s).1) s

/-- What entry number `k` of a chain returns when the entries before it have
run in order from `s` (nil when the chain has no entry `k`). -/
def errAt {σ : Type} (fs : List (σ → σ × Option Error)) (k : Nat) (s : σ) : Option Error :=
  match fs[k]? with
  | none => none
  | some f => (f (stateAfter fs k s)).2

/-- Entry `i` is the first entry of the chain to return an error, and the
error is `e`. -/
def FirstFailure {σ : Type} (fs : List (σ → σ × Option Error)) (s : σ) (i : Nat)
    (e : Error) : Prop :=
  (∀ k, k < i → errAt fs k s = none) ∧ i < fs.length ∧ errAt fs i s = some e

/-- Every entry of the chain returns nil. -/
def AllSucceed {σ : Type} (fs : List (σ → σ × Option Error)) (s : σ) : Prop :=
  ∀ k, k < fs.length → errAt fs k s = none

instance {σ : Type} (fs : List (σ → σ × Option Error)) (s : σ) (i : Nat) (e : Error) :
    Decidable (FirstFailure fs s i e) := by
  unfold FirstFailure
  exact inferInstance

instance {σ : Type} (fs : List (σ → σ × Option Error)) (s : σ) :
    Decidable (AllSucceed fs s) := by
  unfold AllSucceed
  exact inferInstance

/-- The client and the request as the whole before-request chain leaves them. -/
def preparedState (c : Client) (req : Request) : ClientConfig × Request :=
  stateAfter c.beforeRequest c.beforeRequest.length (c.config, req)

/-- The request `execute` hands to the transport: prepared by the
before-request chain and stamped with the dispatch time. -/
def sentRequest (w : World) (c : Client) (req : Request) : Request :=
  { (preparedState c req).2 with Time := w.dispatchTime }

/-- The answer of the transport to the request `execute` sends. -/
def transportResult (w : World) (c : Client) (req : Request) : Except Error HttpResponse :=
  w.Do (preparedState c req).1 (sentRequest w c req).RawRequest

/-- The `Response` that `execute` builds from the reply `raw` and the bytes
`body` read from it. -/
def builtResponse (w : World) (c : Client) (req : Request) (raw : HttpResponse)
    (body : List Nat) : Response :=
  { Body := body, ReceivedAt := w.receiveTime, Request := sentRequest w c req,
    RawResponse := raw }

/-- The state the after-response chain starts from. -/
def repliedState (w : World) (c : Client) (req : Request) (raw : HttpResponse)
    (body : List Nat) : ClientConfig × Response :=
  ((preparedState c req).1, builtResponse w c req raw body)

/-- The key under which `(?i)` compares a character: ASCII letters by their
lower case, U+212A as `k`, U+017F as `s`. -/
def foldKey (c : Char) : Char :=
  if c = Char.ofNat 0x212A then 'k' else if c = Char.ofNat 0x017F then 's' else c.toLower

/-- The string `ct` contains `needle` as a substring, compared
case-insensitively. -/
def ContainsFold (needle ct : String) : Prop :=
  ∃ pre mid post, ct.toList = pre ++ mid ++ post ∧
    List.Forall₂ (fun a b => foldKey a = foldKey b) needle.toList mid

/-- The value lists after `Add` has been called for each entry of `data` in
order. -/
def addAll (v : Values) (data : List (String × String)) : Values :=
  data.foldl (fun v kv => Values.Add v kv.1 kv.2) v

/-- A sequence of `OnBeforeRequest` registrations, in order. -/
def registerAll (b : Builtins) : Client → List RequestMiddleware → Except Panic Client
  | c, [] => Except.ok c
  | c, m :: ms =>
    match c.OnBeforeRequest b m with
    | Except.ok c' => registerAll b c' ms
    | Except.error p => Except.error p

/-! ## Sample values -/

def sampleConfig : ClientConfig :=
  { HostUrl := "http://localhost", QueryParam := [], FormData := [], Header := [],
    UserInfo := none, Token := "", Cookies := [], Error := Value.nil, Debug := false,
    CheckRedirect := some NoRedirectPolicy, setContentLength := false, isHTTPMode := false }

def sampleRequest : Request :=
  { Url := "", Method := "", QueryParam := [], FormData := [], Header := [],
    UserInfo := none, Token := "", Body := Value.nil, Result := Value.nil,
    Error := Value.nil, Time := 0, RawRequest := none, bodyBuf := none,
    isMultiPart := false, isFormData := false, setContentLength := false }

/-- A request marked multipart, as `SetFile("doc", "/tmp/a")` leaves it. -/
def sampleUpload : Request :=
  { sampleRequest with FormData := [("@doc", ["/tmp/a"])], isMultiPart := true }

def sampleHttpRequest : HttpRequest :=
  { Method := "GET", URL := "http://localhost/status", Header := [], Body := [] }

/-- A reply `200 OK` whose body reads as the bytes of `ok`. -/
def sampleReply : HttpResponse :=
  { Status := "200 OK", StatusCode := 200, Header := [], Body := Except.ok [111, 107] }

/-- A transport that answers every request with `sampleReply`. -/
def sampleWorld : World :=
  { dispatchTime := 1, receiveTime := 2, Do := fun _ _ => Except.ok sampleReply }

/-- A transport that refuses every connection. -/
def downWorld : World :=
  { dispatchTime := 1, receiveTime := 2,
    Do := fun _ _ => Except.error ⟨"connection refused"⟩ }

/-- A before-request entry that renders the transport-level request. -/
def renderEntry : RequestMiddleware :=
  fun s => ((s.1, { s.2 with RawRequest := some sampleHttpRequest }), none)

/-- A before-request entry that fails. -/
def failingEntry : RequestMiddleware :=
  fun s => (s, some ⟨"marshal failure"⟩)

/-- An after-response entry that succeeds and writes nothing. -/
def quietEntry : ResponseMiddleware :=
  fun s => (s, none)

/-- An after-response entry that fails and writes nothing. -/
def parseFailure : ResponseMiddleware :=
  fun s => (s, some ⟨"unexpected end of JSON input"⟩)

/-- A client whose before-request chain fails at entry 1. -/
def abortingClient : Client :=
  { config := sampleConfig, beforeRequest := [renderEntry, failingEntry, renderEntry],
    afterResponse := [quietEntry] }

/-- A client whose after-response chain fails at entry 1. -/
def parsingClient : Client :=
  { config := sampleConfig, beforeRequest := [renderEntry],
    afterResponse := [quietEntry, parseFailure, quietEntry] }

/-- A client all of whose entries succeed. -/
def quietClient : Client :=
  { config := sampleConfig, beforeRequest := [renderEntry], afterResponse := [quietEntry] }


def sampleResponse : Response :=
  { Body := [111, 107], ReceivedAt := 2, Request := sampleRequest, RawResponse := sampleReply }

/-- Stand-ins for the built-in entries: loggers write to the log only, and
the body parser has nothing to do when no container is registered. -/
def sampleBuiltins : Builtins :=
  { requestLogger := fun s => (s, none),
    responseLogger := fun s => (s, none),
    parseResponseBody := fun s => (s, none) }

/-- An after-response entry registered by a caller: it rejects every reply. -/
def userEntry : ResponseMiddleware :=
  fun s => (s, some ⟨"rejected by caller"⟩)

/-- A client whose before-request chain is empty. -/
def bareClient : Client :=
  { config := sampleConfig, beforeRequest := [], afterResponse := [] }

/-- A client whose before-request chain ends with the request logger. -/
def loggingClient : Client :=
  { config := sampleConfig, beforeRequest := [renderEntry, sampleBuiltins.requestLogger],
    afterResponse := [sampleBuiltins.responseLogger, sampleBuiltins.parseResponseBody] }

/-- Decoders that reject every input. -/
def strictDecoders : Decoders :=
  { jsonUnmarshal := fun _ d => (d, some ⟨"invalid character"⟩),
    xmlUnmarshal := fun _ d => (d, some ⟨"EOF"⟩) }

/-- A first verb invocation on a fresh request. -/
def firstCall : Outcome :=
  sampleRequest.Get sampleWorld quietClient "http://localhost/a"

/-- A second verb invocation on the request the first one left. -/
def secondCall : Outcome :=
  firstCall.req.Post sampleWorld { quietClient with config := firstCall.client }
    "http://localhost/b"

/-- The digits of the standard base64 alphabet. -/
def base64Digits : List Char :=
  "ABCDEFGHIJKLMNOPQRSTUVWXYZabcdefghijklmnopqrstuvwxyz0123456789+/".toList

/-- The base64 digit of a six-bit value. -/
def base64Digit (n : Nat) : Char :=
  base64Digits.getD n '='

/-- Standard base64 with padding, three bytes to four digits. -/
def base64Std : List Nat → List Char
  | [] => []
  | [a] => [base64Digit (a / 4), base64Digit (a % 4 * 16), '=', '=']
  | [a, b] =>
    [base64Digit (a / 4), base64Digit (a % 4 * 16 + b / 16), base64Digit (b % 16 * 4), '=']
  | a :: b :: c :: rest =>
    base64Digit (a / 4) :: base64Digit (a % 4 * 16 + b / 16)
      :: base64Digit (b % 16 * 4 + c / 64) :: base64Digit (c % 64) :: base64Std rest

/-- Renderers for the examples: marshaling and indenting fail, byte strings
are ASCII. -/
def sampleRenderers : Renderers :=
  { jsonMarshalIndent := fun _ => none,
    xmlMarshalIndent := fun _ => none,
    jsonIndent := fun _ => none,
    base64 := fun b => ⟨base64Std b⟩,
    bytesOf := fun s => s.toList.map Char.toNat,
    stringOf := fun b => ⟨b.map Char.ofNat⟩ }

/-- A `POST` of the text `ok` as `text/plain`. -/
def textPost : Request :=
  { sampleRequest with
    Method := "POST", Header := [("Content-Type", ["text/plain"])], Body := Value.str "ok" }

/-- A `POST` of the bytes of `ok` as `application/octet-stream`. -/
def bytesPost : Request :=
  { sampleRequest with
    Method := "POST", Header := [("Content-Type", ["application/octet-stream"])],
    Body := Value.bytes [111, 107] }

/-! ## Chains -/

theorem stateAfter_zero {σ : Type} (fs : List (σ → σ × Option Error)) (s : σ) :
    stateAfter fs 0 s = s := by
  simp [stateAfter]

theorem stateAfter_cons_succ {σ : Type} (f : σ → σ × Option Error)
    (fs : List (σ → σ × Option Error)) (k : Nat) (s : σ) :
    stateAfter (f :: fs) (k + 1) s = stateAfter fs k (f s).1 := by
  simp [stateAfter]

theorem errAt_cons_zero {σ : Type} (f : σ → σ × Option Error)
    (fs : List (σ → σ × Option Error)) (s : σ) :
    errAt (f :: fs) 0 s = (f s).2 := by
  simp [errAt, stateAfter]

theorem errAt_cons_succ {σ : Type} (f : σ → σ × Option Error)
    (fs : List (σ → σ × Option Error)) (k : Nat) (s : σ) :
    errAt (f :: fs) (k + 1) s = errAt fs k (f s).1 := by
  simp [errAt, stateAfter]

theorem entryEvents_shift (tag : Nat → Event) (n k : Nat) :
    tag n :: (List.range k).map (fun j => tag (n + 1 + j))
      = (List.range (k + 1)).map (fun j => tag (n + j)) := by
  rw [List.range_succ_eq_map, List.map_cons, List.map_map]
  congr 1
  apply List.map_congr_left
  intro j _
  simp [Nat.add_assoc, Nat.add_comm 1 j]

/-- A chain with a first failing entry `i` runs entries `0 .. i` and stops. -/
theorem runChain_firstFailure {σ : Type} (tag : Nat → Event) :
    ∀ (fs : List (σ → σ × Option Error)) (n : Nat) (s : σ) (tr : List Event) (i : Nat)
      (e : Error), FirstFailure fs s i e →
      runChain tag fs n s tr
        = (stateAfter fs (i + 1) s, some e,
            tr ++ (List.range (i + 1)).map (fun j => tag (n + j))) := by
  intro fs
  induction fs with
  | nil =>
    intro n s tr i e h
    exact absurd h.2.1 (by simp)
  | cons f fs ih =>
    intro n s tr i e h
    obtain ⟨hbefore, hlen, herr⟩ := h
    cases i with
    | zero =>
      rw [errAt_cons_zero] at herr
      have hf : f s = ((f s).1, some e) := by rw [← herr]
      rw [runChain, hf]
      simp [stateAfter, List.range_succ]
    | succ i =>
      have h0 : (f s).2 = none := by
        have := hbefore 0 (Nat.succ_pos i)
        rwa [errAt_cons_zero] at this
      have hf : f s = ((f s).1, none) := by rw [← h0]
      have hrest : FirstFailure fs (f s).1 i e := by
        refine ⟨?_, ?_, ?_⟩
        · intro k hk
          have := hbefore (k + 1) (Nat.succ_lt_succ hk)
          rwa [errAt_cons_succ] at this
        · simpa using hlen
        · rwa [errAt_cons_succ] at herr
      have hrun : runChain tag (f :: fs) n s tr
          = runChain tag fs (n + 1) (f s).1 (tr ++ [tag n]) := by
        rw [runChain, hf]
      rw [hrun, ih (n + 1) (f s).1 (tr ++ [tag n]) i e hrest, stateAfter_cons_succ,
        List.append_assoc, List.singleton_append, entryEvents_shift]

/-- A chain all of whose entries succeed runs every entry and reports nil. -/
theorem runChain_allSucceed {σ : Type} (tag : Nat → Event) :
    ∀ (fs : List (σ → σ × Option Error)) (n : Nat) (s : σ) (tr : List Event),
      AllSucceed fs s →
      runChain tag fs n s tr
        = (stateAfter fs fs.length s, none,
            tr ++ (List.range fs.length).map (fun j => tag (n + j))) := by
  intro fs
  induction fs with
  | nil =>
    intro n s tr _
    simp [runChain, stateAfter]
  | cons f fs ih =>
    intro n s tr h
    have h0 : (f s).2 = none := by
      have := h 0 (by simp)
      rwa [errAt_cons_zero] at this
    have hf : f s = ((f s).1, none) := by rw [← h0]
    have hrest : AllSucceed fs (f s).1 := by
      intro k hk
      have := h (k + 1) (by simpa using hk)
      rwa [errAt_cons_succ] at this
    have hrun : runChain tag (f :: fs) n s tr
        = runChain tag fs (n + 1) (f s).1 (tr ++ [tag n]) := by
      rw [runChain, hf]
    rw [hrun, ih (n + 1) (f s).1 (tr ++ [tag n]) hrest, List.length_cons,
      stateAfter_cons_succ, List.append_assoc, List.singleton_append, entryEvents_shift]

/-- Either every entry of a chain succeeds or the chain has a first failing
entry. -/
theorem chain_cases {σ : Type} :
    ∀ (fs : List (σ → σ × Option Error)) (s : σ),
      AllSucceed fs s ∨ ∃ i e, FirstFailure fs s i e := by
  intro fs
  induction fs with
  | nil =>
    intro s
    left
    intro k hk
    exact absurd hk (by simp)
  | cons f fs ih =>
    intro s
    cases h0 : (f s).2 with
    | some e =>
      right
      refine ⟨0, e, ?_, by simp, ?_⟩
      · intro k hk
        exact absurd hk (Nat.not_lt_zero k)
      · rw [errAt_cons_zero, h0]
    | none =>
      rcases ih (f s).1 with hall | ⟨i, e, hb, hl, he⟩
      · left
        intro k hk
        cases k with
        | zero => rw [errAt_cons_zero, h0]
        | succ k =>
          rw [errAt_cons_succ]
          exact hall k (by simpa using hk)
      · right
        refine ⟨i + 1, e, ?_, by simpa using hl, ?_⟩
        · intro k hk
          cases k with
          | zero => rw [errAt_cons_zero, h0]
          | succ k =>
            rw [errAt_cons_succ]
            exact hb k (Nat.lt_of_succ_lt_succ hk)
        · rw [errAt_cons_succ, he]

/-- A chain cannot both succeed everywhere and have a failing entry. -/
theorem not_allSucceed_of_firstFailure {σ : Type} (fs : List (σ → σ × Option Error))
    (s : σ) (i : Nat) (e : Error) (h : FirstFailure fs s i e) : ¬ AllSucceed fs s := by
  intro hall
  have := hall i h.2.1
  rw [h.2.2] at this
  exact absurd this (by simp)


/-- A projection of the state that no entry of a chain writes to is the same
after any number of entries. -/
theorem stateAfter_preserves {σ α : Type} (proj : σ → α) :
    ∀ (fs : List (σ → σ × Option Error)),
      (∀ f, f ∈ fs → ∀ s, proj (f s).1 = proj s) →
      ∀ (k : Nat) (s : σ), proj (stateAfter fs k s) = proj s := by
  intro fs
  induction fs with
  | nil =>
    intro _ k s
    simp [stateAfter]
  | cons f fs ih =>
    intro h k s
    cases k with
    | zero => rw [stateAfter_zero]
    | succ k =>
      rw [stateAfter_cons_succ,
        ih (fun g hg => h g (List.mem_cons_of_mem f hg)) k (f s).1]
      exact h f (List.mem_cons_self f fs) s

/-! ## The five ways through `Client.execute` -/

theorem execute_of_beforeFailure (w : World) (c : Client) (req : Request) (i : Nat)
    (e : Error) (h : FirstFailure c.beforeRequest (c.config, req) i e) :
    c.execute w req
      = { resp := none, err := some e,
          client := (stateAfter c.beforeRequest (i + 1) (c.config, req)).1,
          req := (stateAfter c.beforeRequest (i + 1) (c.config, req)).2,
          trace := (List.range (i + 1)).map Event.before } := by
  unfold Client.execute
  rw [runChain_firstFailure Event.before c.beforeRequest 0 (c.config, req) [] i e h]
  simp

theorem execute_of_transportError (w : World) (c : Client) (req : Request) (e : Error)
    (hbefore : AllSucceed c.beforeRequest (c.config, req))
    (hsend : transportResult w c req = Except.error e) :
    c.execute w req
      = { resp := none, err := some e, client := (preparedState c req).1,
          req := sentRequest w c req,
          trace := (List.range c.beforeRequest.length).map Event.before
            ++ [Event.transport] } := by
  unfold Client.execute
  rw [runChain_allSucceed Event.before c.beforeRequest 0 (c.config, req) [] hbefore]
  unfold transportResult sentRequest preparedState at hsend
  simp only [hsend]
  simp [sentRequest, preparedState]

theorem execute_of_readError (w : World) (c : Client) (req : Request)
    (raw : HttpResponse) (e : Error)
    (hbefore : AllSucceed c.beforeRequest (c.config, req))
    (hsend : transportResult w c req = Except.ok raw)
    (hread : raw.Body = Except.error e) :
    c.execute w req
      = { resp := none, err := some e, client := (preparedState c req).1,
          req := sentRequest w c req,
          trace := (List.range c.beforeRequest.length).map Event.before
            ++ [Event.transport, Event.readBody] } := by
  unfold Client.execute
  rw [runChain_allSucceed Event.before c.beforeRequest 0 (c.config, req) [] hbefore]
  unfold transportResult sentRequest preparedState at hsend
  simp only [hsend, hread]
  simp [sentRequest, preparedState]

theorem execute_of_afterFailure (w : World) (c : Client) (req : Request)
    (raw : HttpResponse) (body : List Nat) (j : Nat) (e : Error)
    (hbefore : AllSucceed c.beforeRequest (c.config, req))
    (hsend : transportResult w c req = Except.ok raw)
    (hread : raw.Body = Except.ok body)
    (hfail : FirstFailure c.afterResponse (repliedState w c req raw body) j e) :
    c.execute w req
      = { resp := some (stateAfter c.afterResponse (j + 1) (repliedState w c req raw body)).2,
          err := some e,
          client := (stateAfter c.afterResponse (j + 1) (repliedState w c req raw body)).1,
          req := (stateAfter c.afterResponse (j + 1)
            (repliedState w c req raw body)).2.Request,
          trace := (List.range c.beforeRequest.length).map Event.before
            ++ [Event.transport, Event.readBody]
            ++ (List.range (j + 1)).map Event.after } := by
  unfold Client.execute
  rw [runChain_allSucceed Event.before c.beforeRequest 0 (c.config, req) [] hbefore]
  unfold transportResult sentRequest preparedState at hsend
  unfold repliedState builtResponse sentRequest preparedState at hfail
  simp only [hsend, hread]
  rw [runChain_firstFailure Event.after c.afterResponse 0 _ _ j e hfail]
  simp [repliedState, builtResponse, sentRequest, preparedState]

theorem execute_of_success (w : World) (c : Client) (req : Request)
    (raw : HttpResponse) (body : List Nat)
    (hbefore : AllSucceed c.beforeRequest (c.config, req))
    (hsend : transportResult w c req = Except.ok raw)
    (hread : raw.Body = Except.ok body)
    (hafter : AllSucceed c.afterResponse (repliedState w c req raw body)) :
    c.execute w req
      = { resp := some (stateAfter c.afterResponse c.afterResponse.length
            (repliedState w c req raw body)).2,
          err := none,
          client := (stateAfter c.afterResponse c.afterResponse.length
            (repliedState w c req raw body)).1,
          req := (stateAfter c.afterResponse c.afterResponse.length
            (repliedState w c req raw body)).2.Request,
          trace := (List.range c.beforeRequest.length).map Event.before
            ++ [Event.transport, Event.readBody]
            ++ (List.range c.afterResponse.length).map Event.after } := by
  unfold Client.execute
  rw [runChain_allSucceed Event.before c.beforeRequest 0 (c.config, req) [] hbefore]
  unfold transportResult sentRequest preparedState at hsend
  unfold repliedState builtResponse sentRequest preparedState at hafter
  simp only [hsend, hread]
  rw [runChain_allSucceed Event.after c.afterResponse 0 _ _ hafter]
  simp [repliedState, builtResponse, sentRequest, preparedState]


/-! ## Claims about `Client.execute` -/

/-- C1. `Client.execute` runs the before-request chain in list order and stops
at the first entry that returns an error: when entry `i` is the first to fail,
with error `e`, the events of the call are exactly the entries `0 .. i`, each
once and in order (so no later entry runs and the transport is not called),
and `execute` returns the nil response with the error `e`. -/
theorem execute_stops_at_first_beforeRequest_failure (w : World) (c : Client)
    (req : Request) (i : Nat) (e : Error)
    (h : FirstFailure c.beforeRequest (c.config, req) i e) :
    (c.execute w req).resp = none ∧
    (c.execute w req).err = some e ∧
    (c.execute w req).trace = (List.range (i + 1)).map Event.before ∧
    (∀ k, (c.execute w req).trace.count (Event.before k) = if k ≤ i then 1 else 0) ∧
    Event.transport ∉ (c.execute w req).trace := by
  rw [execute_of_beforeFailure w c req i e h]
  refine ⟨rfl, rfl, rfl, ?_, ?_⟩
  · intro k
    show ((List.range (i + 1)).map Event.before).count (Event.before k) = _
    rw [List.count_map_of_injective _ Event.before (fun a b hab => by injection hab),
      List.count_eq_of_nodup (List.nodup_range (i + 1))]
    simp [List.mem_range, Nat.lt_succ_iff]
  · simp

/-- A chain of three entries whose entry 1 fails: entries 0 and 1 run, nothing else. -/
theorem execute_stops_at_first_beforeRequest_failure_witness :
    FirstFailure abortingClient.beforeRequest (abortingClient.config, sampleRequest) 1
        ⟨"marshal failure"⟩ ∧
      (abortingClient.execute sampleWorld sampleRequest).resp = none ∧
      (abortingClient.execute sampleWorld sampleRequest).err = some ⟨"marshal failure"⟩ ∧
      (abortingClient.execute sampleWorld sampleRequest).trace
        = [Event.before 0, Event.before 1] :=
  have h : FirstFailure abortingClient.beforeRequest (abortingClient.config, sampleRequest) 1
      ⟨"marshal failure"⟩ := by decide
  have t := execute_stops_at_first_beforeRequest_failure sampleWorld abortingClient
    sampleRequest 1 ⟨"marshal failure"⟩ h
  ⟨h, t.1, t.2.1, t.2.2.1⟩


/-- C2. When the transport call and the body read succeed, `Client.execute`
runs the after-response chain in list order; when entry `j` is the first to
fail, with error `e`, no later after-response entry runs and `execute` returns
`e` together with a non-nil `Response`: the one built with the executed
request as `Request` and the bytes read as `Body`, as entries `0 .. j`, which
received a pointer to it, left it. Its `Body` is still the bytes read, and its
`Request` the executed request, when no entry overwrites that field. -/
theorem execute_returns_response_with_afterResponse_failure (w : World) (c : Client)
    (req : Request) (raw : HttpResponse) (body : List Nat) (j : Nat) (e : Error)
    (hbefore : AllSucceed c.beforeRequest (c.config, req))
    (hsend : transportResult w c req = Except.ok raw)
    (hread : raw.Body = Except.ok body)
    (hfail : FirstFailure c.afterResponse (repliedState w c req raw body) j e) :
    (c.execute w req).err = some e ∧
    (c.execute w req).resp
      = some (stateAfter c.afterResponse (j + 1)
          ((preparedState c req).1, builtResponse w c req raw body)).2 ∧
    ((builtResponse w c req raw body).Request = sentRequest w c req ∧
      (builtResponse w c req raw body).Body = body) ∧
    (c.execute w req).trace
      = (List.range c.beforeRequest.length).map Event.before
          ++ [Event.transport, Event.readBody]
          ++ (List.range (j + 1)).map Event.after ∧
    (∀ k, j < k → Event.after k ∉ (c.execute w req).trace) ∧
    ((∀ f, f ∈ c.afterResponse → ∀ s, (f s).1.2.Body = s.2.Body) →
      ∃ r, (c.execute w req).resp = some r ∧ r.Body = body) ∧
    ((∀ f, f ∈ c.afterResponse → ∀ s, (f s).1.2.Request = s.2.Request) →
      ∃ r, (c.execute w req).resp = some r ∧ r.Request = sentRequest w c req) := by
  rw [execute_of_afterFailure w c req raw body j e hbefore hsend hread hfail]
  refine ⟨rfl, rfl, ⟨rfl, rfl⟩, rfl, ?_, ?_, ?_⟩
  · intro k hk
    simp only [List.mem_append, List.mem_map, List.mem_range, List.mem_cons,
      List.mem_singleton, not_or]
    refine ⟨⟨?_, ?_⟩, ?_⟩
    · rintro ⟨a, _, ha⟩
      cases ha
    · simp
    · rintro ⟨a, ha, hak⟩
      injection hak with hak
      omega
  · intro hframe
    exact ⟨_, rfl, stateAfter_preserves (fun s : ClientConfig × Response => s.2.Body)
      c.afterResponse hframe (j + 1) (repliedState w c req raw body)⟩
  · intro hframe
    exact ⟨_, rfl, stateAfter_preserves (fun s : ClientConfig × Response => s.2.Request)
      c.afterResponse hframe (j + 1) (repliedState w c req raw body)⟩

/-- A reply read in full, then an after-response chain whose entry 1 fails. -/
theorem execute_returns_response_with_afterResponse_failure_witness :
    AllSucceed parsingClient.beforeRequest (parsingClient.config, sampleRequest) ∧
      transportResult sampleWorld parsingClient sampleRequest = Except.ok sampleReply ∧
      sampleReply.Body = Except.ok [111, 107] ∧
      FirstFailure parsingClient.afterResponse
        (repliedState sampleWorld parsingClient sampleRequest sampleReply [111, 107]) 1
        ⟨"unexpected end of JSON input"⟩ ∧
      (parsingClient.execute sampleWorld sampleRequest).err
        = some ⟨"unexpected end of JSON input"⟩ ∧
      (parsingClient.execute sampleWorld sampleRequest).trace
        = [Event.before 0, Event.transport, Event.readBody, Event.after 0, Event.after 1] ∧
      ∃ r, (parsingClient.execute sampleWorld sampleRequest).resp = some r ∧
        r.Body = [111, 107] :=
  have hb : AllSucceed parsingClient.beforeRequest (parsingClient.config, sampleRequest) := by
    decide
  have hs : transportResult sampleWorld parsingClient sampleRequest = Except.ok sampleReply :=
    rfl
  have hr : sampleReply.Body = Except.ok [111, 107] := rfl
  have hf : FirstFailure parsingClient.afterResponse
      (repliedState sampleWorld parsingClient sampleRequest sampleReply [111, 107]) 1
      ⟨"unexpected end of JSON input"⟩ := by decide
  have t := execute_returns_response_with_afterResponse_failure sampleWorld parsingClient
    sampleRequest sampleReply [111, 107] 1 ⟨"unexpected end of JSON input"⟩ hb hs hr hf
  ⟨hb, hs, hr, hf, t.1, t.2.2.2.1,
    t.2.2.2.2.2.1 (fun f hf s => by
      simp only [parsingClient, List.mem_cons, List.mem_singleton, List.not_mem_nil,
        or_false] at hf
      rcases hf with rfl | rfl | rfl <;> rfl)⟩

/-- C3. When every before-request entry succeeds and the transport call
returns an error, `Client.execute` returns the nil response with the
transport's error, and no after-response entry runs. -/
theorem execute_transport_error (w : World) (c : Client) (req : Request) (e : Error)
    (hbefore : AllSucceed c.beforeRequest (c.config, req))
    (hsend : transportResult w c req = Except.error e) :
    (c.execute w req).resp = none ∧
    (c.execute w req).err = some e ∧
    (c.execute w req).trace
      = (List.range c.beforeRequest.length).map Event.before ++ [Event.transport] ∧
    (∀ j, Event.after j ∉ (c.execute w req).trace) := by
  rw [execute_of_transportError w c req e hbefore hsend]
  refine ⟨rfl, rfl, rfl, ?_⟩
  intro j
  simp

/-- A refused connection after a before-request chain that succeeds. -/
theorem execute_transport_error_witness :
    AllSucceed quietClient.beforeRequest (quietClient.config, sampleRequest) ∧
      transportResult downWorld quietClient sampleRequest
        = Except.error ⟨"connection refused"⟩ ∧
      (quietClient.execute downWorld sampleRequest).resp = none ∧
      (quietClient.execute downWorld sampleRequest).err = some ⟨"connection refused"⟩ ∧
      (quietClient.execute downWorld sampleRequest).trace
        = [Event.before 0, Event.transport] :=
  have hb : AllSucceed quietClient.beforeRequest (quietClient.config, sampleRequest) := by
    decide
  have hs : transportResult downWorld quietClient sampleRequest
      = Except.error ⟨"connection refused"⟩ := rfl
  have t := execute_transport_error downWorld quietClient sampleRequest
    ⟨"connection refused"⟩ hb hs
  ⟨hb, hs, t.1, t.2.1, t.2.2.1⟩

/-- C4. `Client.execute` returns a nil error exactly when every before-request
entry returned nil, the transport call succeeded, the body was read without
error and every after-response entry returned nil; and when it returns a
non-nil `Response` together with a non-nil error, the transport call was made
and succeeded, the body was read, and the error is that of the first failing
after-response entry. -/
theorem execute_error_nil_iff (w : World) (c : Client) (req : Request) :
    ((c.execute w req).err = none ↔
      AllSucceed c.beforeRequest (c.config, req) ∧
        ∃ raw body, transportResult w c req = Except.ok raw ∧ raw.Body = Except.ok body ∧
          AllSucceed c.afterResponse (repliedState w c req raw body)) ∧
    (∀ r e, (c.execute w req).resp = some r → (c.execute w req).err = some e →
      Event.transport ∈ (c.execute w req).trace ∧
        ∃ raw body j, transportResult w c req = Except.ok raw ∧ raw.Body = Except.ok body ∧
          FirstFailure c.afterResponse (repliedState w c req raw body) j e) := by
  rcases chain_cases c.beforeRequest (c.config, req) with hbefore | ⟨i, e, hfail⟩
  · cases hsend : transportResult w c req with
    | error e =>
      rw [execute_of_transportError w c req e hbefore hsend]
      refine ⟨⟨fun h => by simp at h, ?_⟩, fun r e' hr _ => by simp at hr⟩
      rintro ⟨_, raw, body, h, _⟩
      cases h
    | ok raw =>
      cases hread : raw.Body with
      | error e =>
        rw [execute_of_readError w c req raw e hbefore hsend hread]
        refine ⟨⟨fun h => by simp at h, ?_⟩, fun r e' hr _ => by simp at hr⟩
        rintro ⟨_, raw', body, h, hb, _⟩
        cases h
        rw [hread] at hb
        cases hb
      | ok body =>
        rcases chain_cases c.afterResponse (repliedState w c req raw body) with
          hafter | ⟨j, e, hfail⟩
        · rw [execute_of_success w c req raw body hbefore hsend hread hafter]
          refine ⟨⟨fun _ => ⟨hbefore, raw, body, rfl, hread, hafter⟩, fun _ => rfl⟩,
            fun r e' _ he => by simp at he⟩
        · rw [execute_of_afterFailure w c req raw body j e hbefore hsend hread hfail]
          refine ⟨⟨fun h => by simp at h, ?_⟩, ?_⟩
          · rintro ⟨_, raw', body', h, hb, hall⟩
            cases h
            rw [hread] at hb
            cases hb
            exact absurd hall (not_allSucceed_of_firstFailure _ _ j e hfail)
          · intro r e' _ he
            have he' : e = e' := by simpa using he
            subst he'
            exact ⟨by simp, raw, body, j, rfl, hread, hfail⟩
  · rw [execute_of_beforeFailure w c req i e hfail]
    refine ⟨⟨fun h => by simp at h, ?_⟩, fun r e' hr _ => by simp at hr⟩
    rintro ⟨hall, _⟩
    exact absurd hall (not_allSucceed_of_firstFailure _ _ i e hfail)

/-- The error is nil when every stage succeeds and non-nil when a parse fails. -/
theorem execute_error_nil_iff_witness :
    (quietClient.execute sampleWorld sampleRequest).err = none ∧
      (parsingClient.execute sampleWorld sampleRequest).err ≠ none :=
  ⟨(execute_error_nil_iff sampleWorld quietClient sampleRequest).1.2
      ⟨by decide, sampleReply, [111, 107], rfl, rfl, by decide⟩,
    fun h => absurd ((execute_error_nil_iff sampleWorld parsingClient sampleRequest).1.1 h).2
      (by
        rintro ⟨raw, body, hs, hb, hall⟩
        have hraw : raw = sampleReply := by
          have : Except.ok sampleReply = (Except.ok raw : Except Error HttpResponse) := hs
          injection this with this
          exact this.symm
        subst hraw
        have hbody : body = [111, 107] := by
          have : (Except.ok [111, 107] : Except Error (List Nat)) = Except.ok body := hb
          injection this with this
          exact this.symm
        subst hbody
        revert hall
        decide)⟩


/-! ## Claims about `Request.execute` and the verb methods -/

/-- Every call of `Client.execute` leaves an event: it enters a before-request
entry or calls the transport. -/
theorem execute_trace_ne_nil (w : World) (c : Client) (req : Request) :
    (c.execute w req).trace ≠ [] := by
  rcases chain_cases c.beforeRequest (c.config, req) with hbefore | ⟨i, e, hfail⟩
  · cases hsend : transportResult w c req with
    | error e =>
      rw [execute_of_transportError w c req e hbefore hsend]
      simp
    | ok raw =>
      cases hread : raw.Body with
      | error e =>
        rw [execute_of_readError w c req raw e hbefore hsend hread]
        simp
      | ok body =>
        rcases chain_cases c.afterResponse (repliedState w c req raw body) with
          hafter | ⟨j, e, hfail⟩
        · rw [execute_of_success w c req raw body hbefore hsend hread hafter]
          simp
        · rw [execute_of_afterFailure w c req raw body j e hbefore hsend hread hfail]
          simp
  · rw [execute_of_beforeFailure w c req i e hfail]
    simp [List.range_succ]

/-- C5. On a `Request` marked multipart, `Get`, `Delete`, `Patch`, `Head` and
`Options` (and `execute` with any method other than POST and PUT) return the
nil response and an error naming the verb, leave no event (no middleware
entry, no transport call: `Client.execute`, which always leaves one, is not
invoked) and leave the `Request`, its `Method` and `Url` included, as it was.
`Post` and `Put`, and every verb on a `Request` that is not multipart, set
`Method` and `Url` to the arguments and return what `Client.execute` returns
on that request. -/
theorem verb_methods_multipart_guard (w : World) (c : Client) (r : Request) (url : String) :
    (r.isMultiPart = true →
      (∀ method, method ≠ POST → method ≠ PUT →
        r.execute w c method url
          = { resp := none,
              err := some ⟨"File upload is not allowed in HTTP verb [" ++ method ++ "]"⟩,
              client := c.config, req := r, trace := [] }) ∧
      ∀ verb, verb ∈ [(Request.Get, GET), (Request.Delete, DELETE), (Request.Patch, PATCH),
          (Request.Head, HEAD), (Request.Options, OPTIONS)] →
        (verb.1 w c r url).resp = none ∧
        (verb.1 w c r url).err
          = some ⟨"File upload is not allowed in HTTP verb [" ++ verb.2 ++ "]"⟩ ∧
        (verb.1 w c r url).trace = [] ∧
        (verb.1 w c r url).req = r ∧
        (verb.1 w c r url).req.Method = r.Method ∧
        (verb.1 w c r url).req.Url = r.Url) ∧
    (∀ c' r', (Client.execute w c' r').trace ≠ []) ∧
    (∀ verb, verb ∈ [(Request.Post, POST), (Request.Put, PUT)] →
      verb.1 w c r url = c.execute w { r with Method := verb.2, Url := url }) ∧
    (r.isMultiPart = false →
      (∀ method, r.execute w c method url
        = c.execute w { r with Method := method, Url := url }) ∧
      ∀ verb, verb ∈ [(Request.Get, GET), (Request.Post, POST), (Request.Put, PUT),
          (Request.Delete, DELETE), (Request.Patch, PATCH), (Request.Head, HEAD),
          (Request.Options, OPTIONS)] →
        verb.1 w c r url = c.execute w { r with Method := verb.2, Url := url }) := by
  refine ⟨fun hm => ⟨?_, ?_⟩, execute_trace_ne_nil w, ?_, fun hm => ⟨?_, ?_⟩⟩
  · intro method hpost hput
    simp [Request.execute, hm, hpost, hput]
  · intro verb hverb
    simp only [List.mem_cons, List.mem_singleton, List.not_mem_nil, or_false] at hverb
    rcases hverb with rfl | rfl | rfl | rfl | rfl <;>
      simp [Request.Get, Request.Delete, Request.Patch, Request.Head, Request.Options,
        Request.execute, hm, GET, DELETE, PATCH, HEAD, OPTIONS, POST, PUT]
  · intro verb hverb
    simp only [List.mem_cons, List.mem_singleton, List.not_mem_nil, or_false] at hverb
    rcases hverb with rfl | rfl <;>
      simp [Request.Post, Request.Put, Request.execute, POST, PUT]
  · intro method
    simp [Request.execute, hm]
  · intro verb hverb
    simp only [List.mem_cons, List.mem_singleton, List.not_mem_nil, or_false] at hverb
    rcases hverb with rfl | rfl | rfl | rfl | rfl | rfl | rfl <;>
      simp [Request.Get, Request.Post, Request.Put, Request.Delete, Request.Patch,
        Request.Head, Request.Options, Request.execute, hm]

/-- A multipart request: `Get` is refused, `Post` goes to `Client.execute`. -/
theorem verb_methods_multipart_guard_witness :
    sampleUpload.isMultiPart = true ∧
      (sampleUpload.Get sampleWorld quietClient "http://localhost/upload").resp = none ∧
      (sampleUpload.Get sampleWorld quietClient "http://localhost/upload").err
        = some ⟨"File upload is not allowed in HTTP verb [GET]"⟩ ∧
      (sampleUpload.Get sampleWorld quietClient "http://localhost/upload").trace = [] ∧
      (sampleUpload.Get sampleWorld quietClient "http://localhost/upload").req.Method = "" ∧
      sampleUpload.Post sampleWorld quietClient "http://localhost/upload"
        = quietClient.execute sampleWorld
            { sampleUpload with Method := "POST", Url := "http://localhost/upload" } :=
  have t := verb_methods_multipart_guard sampleWorld quietClient sampleUpload
    "http://localhost/upload"
  have g := (t.1 rfl).2 (Request.Get, GET) (by simp)
  ⟨rfl, g.1, g.2.1, g.2.2.1, g.2.2.2.2.1, t.2.2.1 (Request.Post, POST) (by simp)⟩


/-! ## Claims about the redirect policies -/

/-- C6. For every `n`, `FlexibleRedirectPolicy(n)` returns no error on every
redirect history shorter than `n`, and on a history of length `n + 1` it
returns the error `Stopped after n redirects`, `n` in decimal. -/
theorem flexibleRedirectPolicy_short_and_long (n : Int) (req : HttpRequest)
    (via : List HttpRequest) :
    ((via.length : Int) < n → FlexibleRedirectPolicy n req via = none) ∧
    ((via.length : Int) = n + 1 →
      FlexibleRedirectPolicy n req via
        = some ⟨"Stopped after " ++ toString n ++ " redirects"⟩) := by
  constructor
  · intro h
    simp [FlexibleRedirectPolicy, h]
  · intro h
    have : n ≤ (via.length : Int) := by omega
    simp [FlexibleRedirectPolicy, this]

/-- The policy for 10 on histories of length 9 and 11. -/
theorem flexibleRedirectPolicy_short_and_long_witness :
    FlexibleRedirectPolicy 10 sampleHttpRequest (List.replicate 9 sampleHttpRequest) = none ∧
      FlexibleRedirectPolicy 10 sampleHttpRequest (List.replicate 11 sampleHttpRequest)
        = some ⟨"Stopped after 10 redirects"⟩ :=
  ⟨(flexibleRedirectPolicy_short_and_long 10 sampleHttpRequest
      (List.replicate 9 sampleHttpRequest)).1 (by decide),
    (flexibleRedirectPolicy_short_and_long 10 sampleHttpRequest
      (List.replicate 11 sampleHttpRequest)).2 (by decide)⟩

/-- C7, as stated, fails: `FlexibleRedirectPolicy(1)` returns its error on a
history of length 1, and `FlexibleRedirectPolicy(0)` on the empty history. -/
theorem flexibleRedirectPolicy_fails_at_length_n :
    (([sampleHttpRequest].length : Int) ≤ 1 ∧
      FlexibleRedirectPolicy 1 sampleHttpRequest [sampleHttpRequest]
        = some ⟨"Stopped after 1 redirects"⟩) ∧
    ((([] : List HttpRequest).length : Int) ≤ 0 ∧
      FlexibleRedirectPolicy 0 sampleHttpRequest []
        = some ⟨"Stopped after 0 redirects"⟩) := by
  decide

/-- C7, amended. The hop count being the length of the redirect history,
`FlexibleRedirectPolicy(n)` returns no error exactly on the histories shorter
than `n`, and on every history of length `n` or more it returns the error
`Stopped after n redirects`: for `n ≥ 0` it first fails at length `n`. -/
theorem flexibleRedirectPolicy_none_iff (n : Int) (req : HttpRequest)
    (via : List HttpRequest) :
    (FlexibleRedirectPolicy n req via = none ↔ (via.length : Int) < n) ∧
    (n ≤ (via.length : Int) →
      FlexibleRedirectPolicy n req via
        = some ⟨"Stopped after " ++ toString n ++ " redirects"⟩) := by
  by_cases h : n ≤ (via.length : Int)
  · have hlt : ¬ (via.length : Int) < n := by omega
    simp [FlexibleRedirectPolicy, h, hlt]
  · have hlt : (via.length : Int) < n := by omega
    simp [FlexibleRedirectPolicy, h, hlt]

/-- The policy for 10 on histories of length 10 and 9. -/
theorem flexibleRedirectPolicy_none_iff_witness :
    FlexibleRedirectPolicy 10 sampleHttpRequest (List.replicate 10 sampleHttpRequest)
        = some ⟨"Stopped after 10 redirects"⟩ ∧
      FlexibleRedirectPolicy 10 sampleHttpRequest (List.replicate 9 sampleHttpRequest)
        = none :=
  ⟨(flexibleRedirectPolicy_none_iff 10 sampleHttpRequest
      (List.replicate 10 sampleHttpRequest)).2 (by decide),
    (flexibleRedirectPolicy_none_iff 10 sampleHttpRequest
      (List.replicate 9 sampleHttpRequest)).1.2 (by decide)⟩

/-- C8. `NoRedirectPolicy` returns the error `Auto redirect is disabled`, not
nil, for every request and every redirect history, the empty history and the
history of the first redirect attempt included. -/
theorem noRedirectPolicy_always_fails (req : HttpRequest) (via : List HttpRequest) :
    NoRedirectPolicy req via = some ⟨"Auto redirect is disabled"⟩ ∧
    NoRedirectPolicy req via ≠ none ∧
    NoRedirectPolicy req [] = some ⟨"Auto redirect is disabled"⟩ ∧
    (∀ first, NoRedirectPolicy req [first] = some ⟨"Auto redirect is disabled"⟩) := by
  simp [NoRedirectPolicy]


/-! ## Characters and case -/

theorem toLower_cases (d : Char) :
    d.toLower = d ∨ ∃ n : Fin 26, d = Char.ofNat (65 + n.val) := by
  by_cases h : d.toNat ≥ 65 ∧ d.toNat ≤ 90
  · right
    refine ⟨⟨d.toNat - 65, by omega⟩, ?_⟩
    have : 65 + (d.toNat - 65) = d.toNat := by omega
    simp only [this, Char.ofNat_toNat]
  · left
    unfold Char.toLower
    simp only [h, if_false]

theorem toUpper_cases (d : Char) :
    d.toUpper = d ∨ ∃ n : Fin 26, d = Char.ofNat (97 + n.val) := by
  by_cases h : d.toNat ≥ 97 ∧ d.toNat ≤ 122
  · right
    refine ⟨⟨d.toNat - 97, by omega⟩, ?_⟩
    have : 97 + (d.toNat - 97) = d.toNat := by omega
    simp only [this, Char.ofNat_toNat]
  · left
    unfold Char.toUpper
    simp only [h, if_false]

theorem jsonCheck_eq :
    jsonCheck = ⟨true, [Atom.cls ['a', 'p', 'p', 'l', 'i', 'c', 'a', 't', 'i', 'o', 'n', '|',
      't', 'e', 'x', 't'], Atom.lit '/', Atom.lit 'j', Atom.lit 's', Atom.lit 'o',
      Atom.lit 'n']⟩ := by
  decide

theorem xmlCheck_eq :
    xmlCheck = ⟨true, [Atom.cls ['a', 'p', 'p', 'l', 'i', 'c', 'a', 't', 'i', 'o', 'n', '|',
      't', 'e', 'x', 't'], Atom.lit '/', Atom.lit 'x', Atom.lit 'm', Atom.lit 'l']⟩ := by
  decide

set_option maxRecDepth 100000 in
theorem accepts_toLower_upper :
    ∀ n : Fin 26, ∀ a, a ∈ jsonCheck.atoms ++ xmlCheck.atoms →
      a.accepts true (Char.ofNat (65 + n.val)).toLower
        = a.accepts true (Char.ofNat (65 + n.val)) := by
  decide

set_option maxRecDepth 100000 in
theorem accepts_toUpper_lower :
    ∀ n : Fin 26, ∀ a, a ∈ jsonCheck.atoms ++ xmlCheck.atoms →
      a.accepts true (Char.ofNat (97 + n.val)).toUpper
        = a.accepts true (Char.ofNat (97 + n.val)) := by
  decide


/-! ## The matcher -/

theorem matchHere_iff (foldCase : Bool) :
    ∀ (atoms : List Atom) (cs : List Char),
      matchHere foldCase atoms cs = true ↔
        ∃ mid post, cs = mid ++ post ∧
          List.Forall₂ (fun a d => a.accepts foldCase d = true) atoms mid := by
  intro atoms
  induction atoms with
  | nil =>
    intro cs
    simp [matchHere]
  | cons a as ih =>
    intro cs
    cases cs with
    | nil =>
      simp only [matchHere, Bool.false_eq_true, false_iff]
      rintro ⟨mid, post, hcs, hmid⟩
      cases hmid with
      | cons _ _ => simp at hcs
    | cons d ds =>
      simp only [matchHere, Bool.and_eq_true, ih ds]
      constructor
      · rintro ⟨hd, mid, post, rfl, hmid⟩
        exact ⟨d :: mid, post, rfl, List.Forall₂.cons hd hmid⟩
      · rintro ⟨mid, post, hcs, hmid⟩
        cases hmid with
        | cons hd htl =>
          simp only [List.cons_append, List.cons.injEq] at hcs
          obtain ⟨rfl, rfl⟩ := hcs
          exact ⟨hd, _, post, rfl, htl⟩

theorem matchFrom_iff (re : Regexp) :
    ∀ cs : List Char,
      matchFrom re cs = true ↔
        ∃ pre suf, cs = pre ++ suf ∧ matchHere re.foldCase re.atoms suf = true := by
  intro cs
  induction cs with
  | nil =>
    simp only [matchFrom]
    constructor
    · intro h
      exact ⟨[], [], rfl, h⟩
    · rintro ⟨pre, suf, hcs, h⟩
      have hsuf : suf = [] := (List.append_eq_nil.1 hcs.symm).2
      rw [hsuf] at h
      exact h
  | cons d ds ih =>
    simp only [matchFrom, Bool.or_eq_true, ih]
    constructor
    · rintro (h | ⟨pre, suf, rfl, h⟩)
      · exact ⟨[], d :: ds, rfl, h⟩
      · exact ⟨d :: pre, suf, rfl, h⟩
    · rintro ⟨pre, suf, hcs, h⟩
      cases pre with
      | nil =>
        left
        simp only [List.nil_append] at hcs
        rw [hcs]
        exact h
      | cons p pre =>
        right
        simp only [List.cons_append, List.cons.injEq] at hcs
        exact ⟨pre, suf, hcs.2, h⟩

/-- A pattern matches a string exactly when some run of consecutive
characters of the string is accepted position by position. -/
theorem matchString_iff (re : Regexp) (s : String) :
    re.MatchString s = true ↔
      ∃ pre mid post, s.toList = pre ++ mid ++ post ∧
        List.Forall₂ (fun a d => a.accepts re.foldCase d = true) re.atoms mid := by
  unfold Regexp.MatchString
  rw [matchFrom_iff]
  constructor
  · rintro ⟨pre, suf, hs, h⟩
    obtain ⟨mid, post, rfl, hmid⟩ := (matchHere_iff _ _ _).1 h
    exact ⟨pre, mid, post, by rw [hs, List.append_assoc], hmid⟩
  · rintro ⟨pre, mid, post, hs, hmid⟩
    exact ⟨pre, mid ++ post, by rw [hs, List.append_assoc],
      (matchHere_iff _ _ _).2 ⟨mid, post, rfl, hmid⟩⟩

theorem matchHere_map (foldCase : Bool) (f : Char → Char) :
    ∀ (atoms : List Atom),
      (∀ a, a ∈ atoms → ∀ d, a.accepts foldCase (f d) = a.accepts foldCase d) →
      ∀ cs : List Char, matchHere foldCase atoms (cs.map f) = matchHere foldCase atoms cs := by
  intro atoms
  induction atoms with
  | nil =>
    intro _ cs
    simp [matchHere]
  | cons a as ih =>
    intro h cs
    cases cs with
    | nil => simp [matchHere]
    | cons d ds =>
      simp only [List.map_cons, matchHere]
      rw [h a (List.mem_cons_self a as) d,
        ih (fun b hb => h b (List.mem_cons_of_mem a hb)) ds]

theorem matchFrom_map (re : Regexp) (f : Char → Char)
    (h : ∀ a, a ∈ re.atoms → ∀ d, a.accepts re.foldCase (f d) = a.accepts re.foldCase d) :
    ∀ cs : List Char, matchFrom re (cs.map f) = matchFrom re cs := by
  intro cs
  induction cs with
  | nil => simp [matchFrom]
  | cons d ds ih =>
    have := matchHere_map re.foldCase f re.atoms h (d :: ds)
    simp only [List.map_cons] at this
    simp only [List.map_cons, matchFrom, this, ih]

theorem forall₂_chain {α β γ : Type} {R : α → β → Prop} {S : β → γ → Prop}
    {T : α → γ → Prop} (h : ∀ a b c, R a b → S b c → T a c) :
    ∀ {l₁ : List α} {l₂ : List β} {l₃ : List γ},
      List.Forall₂ R l₁ l₂ → List.Forall₂ S l₂ l₃ → List.Forall₂ T l₁ l₃ := by
  intro l₁ l₂ l₃ h₁
  induction h₁ generalizing l₃ with
  | nil =>
    intro h₂
    cases h₂
    exact List.Forall₂.nil
  | cons hab _ ih =>
    intro h₂
    cases h₂ with
    | cons hbc htl => exact List.Forall₂.cons (h _ _ _ hab hbc) (ih htl)

/-! ## Case folding -/

set_option maxRecDepth 100000 in
theorem orbit_iff_foldKey :
    ∀ p, p ∈ ['/', 'j', 's', 'o', 'n', 'x', 'm', 'l', 't'] → ∀ d,
      d ∈ simpleFoldOrbit p ↔ foldKey p = foldKey d := by
  intro p hp d
  by_cases hK : d = Char.ofNat 0x212A
  · subst hK
    revert p
    decide
  by_cases hS : d = Char.ofNat 0x017F
  · subst hS
    revert p
    decide
  rcases toLower_cases d with hfix | ⟨n, rfl⟩
  · have hkey : foldKey d = d := by
      simp only [foldKey, hK, hS, if_false, hfix]
    rw [hkey]
    constructor
    · intro hd
      have hall : ∀ p, p ∈ ['/', 'j', 's', 'o', 'n', 'x', 'm', 'l', 't'] →
          ∀ x, x ∈ simpleFoldOrbit p → x.toLower = x → x ≠ Char.ofNat 0x212A →
            x ≠ Char.ofNat 0x017F → foldKey p = x := by
        decide
      exact hall p hp d hd hfix hK hS
    · intro hd
      have hall : ∀ p, p ∈ ['/', 'j', 's', 'o', 'n', 'x', 'm', 'l', 't'] →
          foldKey p ∈ simpleFoldOrbit p := by
        decide
      rw [← hd]
      exact hall p hp
  · clear hK hS
    revert p n
    decide


theorem lit_accepts_iff (p : Char) (hp : p ∈ ['/', 'j', 's', 'o', 'n', 'x', 'm', 'l', 't'])
    (d : Char) : (Atom.lit p).accepts true d = true ↔ foldKey p = foldKey d := by
  simp [Atom.accepts, orbit_iff_foldKey p hp d]

theorem cls_accepts (members : List Char) (p : Char) (hmem : p ∈ members)
    (hp : p ∈ ['/', 'j', 's', 'o', 'n', 'x', 'm', 'l', 't']) (d : Char)
    (h : foldKey p = foldKey d) : (Atom.cls members).accepts true d = true := by
  simp only [Atom.accepts, if_true, List.any_eq_true, decide_eq_true_eq]
  exact ⟨p, hmem, (orbit_iff_foldKey p hp d).2 h⟩

theorem lits_accept_iff :
    ∀ lits : List Char, (∀ p, p ∈ lits → p ∈ ['/', 'j', 's', 'o', 'n', 'x', 'm', 'l', 't']) →
      ∀ mid : List Char,
        List.Forall₂ (fun a d => a.accepts true d = true) (lits.map Atom.lit) mid ↔
          List.Forall₂ (fun p d => foldKey p = foldKey d) lits mid := by
  intro lits
  induction lits with
  | nil =>
    intro _ mid
    simp
  | cons p ps ih =>
    intro h mid
    cases mid with
    | nil =>
      constructor <;> intro hf <;> cases hf
    | cons d ds =>
      simp only [List.map_cons, List.forall₂_cons,
        lit_accepts_iff p (h p (List.mem_cons_self p ps)) d,
        ih (fun q hq => h q (List.mem_cons_of_mem p hq)) ds]

/-- A string that contains, case-insensitively, a needle whose last
characters the pattern accepts position by position matches the pattern. -/
theorem matchString_of_containsFold (re : Regexp) (hfold : re.foldCase = true)
    (members : List Char) (lits : List Char)
    (hatoms : re.atoms = Atom.cls members :: lits.map Atom.lit)
    (hlits : ∀ p, p ∈ lits → p ∈ ['/', 'j', 's', 'o', 'n', 'x', 'm', 'l', 't'])
    (needle : String) (k : Nat) (p : Char) (hmem : p ∈ members)
    (hp : p ∈ ['/', 'j', 's', 'o', 'n', 'x', 'm', 'l', 't'])
    (hneedle : needle.toList.drop k = p :: lits)
    (ct : String) (h : ContainsFold needle ct) : re.MatchString ct = true := by
  obtain ⟨pre, mid, post, hct, hmid⟩ := h
  have htail := List.forall₂_drop k hmid
  rw [hneedle] at htail
  rw [matchString_iff, hfold, hatoms]
  refine ⟨pre ++ mid.take k, mid.drop k, post, ?_, ?_⟩
  · rw [hct, List.append_assoc pre (mid.take k), List.take_append_drop]
  · cases hdrop : mid.drop k with
    | nil =>
      rw [hdrop] at htail
      cases htail
    | cons d ds =>
      rw [hdrop] at htail
      cases htail with
      | cons hd htl =>
        exact List.Forall₂.cons (cls_accepts members p hmem hp d hd)
          ((lits_accept_iff lits hlits ds).2 htl)

/-- A string that matches the pattern contains, case-insensitively, the
literal characters that follow the pattern's class. -/
theorem containsFold_of_matchString (re : Regexp) (hfold : re.foldCase = true)
    (members : List Char) (lits : List Char)
    (hatoms : re.atoms = Atom.cls members :: lits.map Atom.lit)
    (hlits : ∀ p, p ∈ lits → p ∈ ['/', 'j', 's', 'o', 'n', 'x', 'm', 'l', 't'])
    (needle : String) (hneedle : needle.toList = lits)
    (ct : String) (h : re.MatchString ct = true) : ContainsFold needle ct := by
  rw [matchString_iff, hfold, hatoms] at h
  obtain ⟨pre, mid, post, hct, hmid⟩ := h
  cases hmid with
  | cons hd htl =>
    rename_i d ds
    refine ⟨pre ++ [d], ds, post, ?_, ?_⟩
    · rw [hct]
      simp
    · rw [hneedle]
      exact (lits_accept_iff lits hlits ds).1 htl


/-! ## Claims about the content-type classifiers -/

/-- C9, as stated, fails: `application/vnd.api+json` contains `json` and
`IsJsonType` is false on it. -/
theorem isJsonType_false_on_json_substring :
    ContainsFold "json" "application/vnd.api+json" ∧
      IsJsonType "application/vnd.api+json" = false :=
  ⟨⟨"application/vnd.api+".toList, "json".toList, [], by decide,
      (List.forall₂_same).2 (fun _ _ => rfl)⟩, by decide⟩

/-- C9, amended. For every content-type string `ct`, `IsJsonType(ct)` is true
whenever `ct` contains `application/json` or `text/json` compared
case-insensitively, and only if `ct` contains `/json` compared
case-insensitively; `IsXmlType(ct)` likewise with `application/xml`,
`text/xml` and `/xml`. So `application/vnd.api+json` and
`application/hal+json` do not classify as JSON, nor `application/atom+xml`
as XML. -/
theorem classification_needs_slash_subtype (ct : String) :
    (ContainsFold "application/json" ct ∨ ContainsFold "text/json" ct →
      IsJsonType ct = true) ∧
    (IsJsonType ct = true → ContainsFold "/json" ct) ∧
    (ContainsFold "application/xml" ct ∨ ContainsFold "text/xml" ct →
      IsXmlType ct = true) ∧
    (IsXmlType ct = true → ContainsFold "/xml" ct) ∧
    IsJsonType "application/vnd.api+json" = false ∧
    IsJsonType "application/hal+json" = false ∧
    IsXmlType "application/atom+xml" = false := by
  have hj : jsonCheck.atoms
      = Atom.cls ['a', 'p', 'p', 'l', 'i', 'c', 'a', 't', 'i', 'o', 'n', '|', 't', 'e', 'x', 't']
        :: ['/', 'j', 's', 'o', 'n'].map Atom.lit := by
    rw [jsonCheck_eq]
    rfl
  have hx : xmlCheck.atoms
      = Atom.cls ['a', 'p', 'p', 'l', 'i', 'c', 'a', 't', 'i', 'o', 'n', '|', 't', 'e', 'x', 't']
        :: ['/', 'x', 'm', 'l'].map Atom.lit := by
    rw [xmlCheck_eq]
    rfl
  have hjf : jsonCheck.foldCase = true := by rw [jsonCheck_eq]
  have hxf : xmlCheck.foldCase = true := by rw [xmlCheck_eq]
  refine ⟨?_, ?_, ?_, ?_, by decide, by decide, by decide⟩
  · rintro (h | h)
    · exact matchString_of_containsFold jsonCheck hjf _ _ hj (by decide)
        "application/json" 10 'n' (by decide) (by decide) (by decide) ct h
    · exact matchString_of_containsFold jsonCheck hjf _ _ hj (by decide)
        "text/json" 3 't' (by decide) (by decide) (by decide) ct h
  · exact containsFold_of_matchString jsonCheck hjf _ _ hj (by decide) "/json" (by decide) ct
  · rintro (h | h)
    · exact matchString_of_containsFold xmlCheck hxf _ _ hx (by decide)
        "application/xml" 10 'n' (by decide) (by decide) (by decide) ct h
    · exact matchString_of_containsFold xmlCheck hxf _ _ hx (by decide)
        "text/xml" 3 't' (by decide) (by decide) (by decide) ct h
  · exact containsFold_of_matchString xmlCheck hxf _ _ hx (by decide) "/xml" (by decide) ct

/-- A mixed-case `Text/JSON` with parameters classifies as JSON. -/
theorem classification_needs_slash_subtype_witness :
    ContainsFold "text/json" "Text/JSON; charset=utf-8" ∧
      IsJsonType "Text/JSON; charset=utf-8" = true ∧
      ContainsFold "/json" "Text/JSON; charset=utf-8" :=
  have h : ContainsFold "text/json" "Text/JSON; charset=utf-8" :=
    ⟨[], "Text/JSON".toList, "; charset=utf-8".toList, by decide, by
      simp only [String.toList, List.forall₂_cons, List.forall₂_nil_left_iff]
      decide⟩
  have t := classification_needs_slash_subtype "Text/JSON; charset=utf-8"
  ⟨h, t.1 (Or.inr h), t.2.1 (t.1 (Or.inr h))⟩

/-- C10. Classification is a function of the string alone and ignores ASCII
case: for every content-type string `ct`, `IsJsonType` gives the same answer
on `ct`, on `ct` with its ASCII letters lower-cased and on `ct` with its ASCII
letters upper-cased, and so does `IsXmlType`; `Application/JSON` and
`application/json` classify identically. -/
theorem classification_ignores_ascii_case (ct : String) :
    IsJsonType ct.toLower = IsJsonType ct ∧
    IsJsonType ct.toUpper = IsJsonType ct ∧
    IsXmlType ct.toLower = IsXmlType ct ∧
    IsXmlType ct.toUpper = IsXmlType ct ∧
    ("Application/JSON".toLower = "application/json" ∧
      IsJsonType "Application/JSON" = IsJsonType "application/json" ∧
      IsXmlType "Application/JSON" = IsXmlType "application/json") := by
  have hjf : jsonCheck.foldCase = true := by rw [jsonCheck_eq]
  have hxf : xmlCheck.foldCase = true := by rw [xmlCheck_eq]
  have hlow : ∀ a, a ∈ jsonCheck.atoms ++ xmlCheck.atoms → ∀ d,
      a.accepts true d.toLower = a.accepts true d := by
    intro a ha d
    rcases toLower_cases d with hfix | ⟨n, rfl⟩
    · rw [hfix]
    · exact accepts_toLower_upper n a ha
  have hup : ∀ a, a ∈ jsonCheck.atoms ++ xmlCheck.atoms → ∀ d,
      a.accepts true d.toUpper = a.accepts true d := by
    intro a ha d
    rcases toUpper_cases d with hfix | ⟨n, rfl⟩
    · rw [hfix]
    · exact accepts_toUpper_lower n a ha
  refine ⟨?_, ?_, ?_, ?_, by rw [String.toLower, String.map_eq]; decide, by decide,
    by decide⟩
  · show matchFrom jsonCheck (ct.toLower).toList = matchFrom jsonCheck ct.toList
    rw [String.toLower, String.map_eq]
    exact matchFrom_map jsonCheck Char.toLower
      (fun a ha d => by rw [hjf]; exact hlow a (List.mem_append_left _ ha) d) ct.toList
  · show matchFrom jsonCheck (ct.toUpper).toList = matchFrom jsonCheck ct.toList
    rw [String.toUpper, String.map_eq]
    exact matchFrom_map jsonCheck Char.toUpper
      (fun a ha d => by rw [hjf]; exact hup a (List.mem_append_left _ ha) d) ct.toList
  · show matchFrom xmlCheck (ct.toLower).toList = matchFrom xmlCheck ct.toList
    rw [String.toLower, String.map_eq]
    exact matchFrom_map xmlCheck Char.toLower
      (fun a ha d => by rw [hxf]; exact hlow a (List.mem_append_right _ ha) d) ct.toList
  · show matchFrom xmlCheck (ct.toUpper).toList = matchFrom xmlCheck ct.toList
    rw [String.toUpper, String.map_eq]
    exact matchFrom_map xmlCheck Char.toUpper
      (fun a ha d => by rw [hxf]; exact hup a (List.mem_append_right _ ha) d) ct.toList

/-! ## Claims about content negotiation -/

/-- C11. `Unmarshal(ct, b, d)` dispatches on the classification of `ct`: when
`IsJsonType(ct)` it returns what JSON-decoding `b` into `d` returns; otherwise
when `IsXmlType(ct)` it returns what XML-decoding `b` into `d` returns; when
`ct` matches neither it returns the nil error and leaves `d` as it was,
whatever the bytes `b`. -/
theorem unmarshal_dispatches_on_classification (dec : Decoders) (ct : String)
    (b : List Nat) (d : Value) :
    (IsJsonType ct = true → Unmarshal dec ct b d = dec.jsonUnmarshal b d) ∧
    (IsJsonType ct = false → IsXmlType ct = true →
      Unmarshal dec ct b d = dec.xmlUnmarshal b d) ∧
    (IsJsonType ct = false → IsXmlType ct = false → Unmarshal dec ct b d = (d, none)) := by
  refine ⟨fun hj => ?_, fun hj hx => ?_, fun hj hx => ?_⟩
  · simp [Unmarshal, hj]
  · simp [Unmarshal, hj, hx]
  · simp [Unmarshal, hj, hx]

/-- With decoders that reject every input: JSON and XML content types reach
their decoder, `text/plain` reaches none. -/
theorem unmarshal_dispatches_on_classification_witness :
    Unmarshal strictDecoders "application/json" [123] Value.nil
        = (Value.nil, some ⟨"invalid character"⟩) ∧
      Unmarshal strictDecoders "text/xml" [123] Value.nil = (Value.nil, some ⟨"EOF"⟩) ∧
      Unmarshal strictDecoders "text/plain" [123] Value.nil = (Value.nil, none) :=
  ⟨(unmarshal_dispatches_on_classification strictDecoders "application/json" [123]
      Value.nil).1 (by decide),
    (unmarshal_dispatches_on_classification strictDecoders "text/xml" [123]
      Value.nil).2.1 (by decide) (by decide),
    (unmarshal_dispatches_on_classification strictDecoders "text/plain" [123]
      Value.nil).2.2 (by decide) (by decide)⟩

/-- C12, on the code. `DetectContentType` yields the JSON content type for a
struct or a map, the plain-text content type for a string and the sniffed
content type for a byte sequence; on every other value, such as an integer,
nil or a pointer to a struct, the type assertion `body.([]byte)` of its
default branch panics and nothing is returned. -/
theorem detectContentType_panics_on_other_kinds (sniff : List Nat → String) :
    (∀ fields, DetectContentType sniff (Value.struct fields)
      = Except.ok "application/json; charset=utf-8") ∧
    (∀ entries, DetectContentType sniff (Value.map entries)
      = Except.ok "application/json; charset=utf-8") ∧
    (∀ s, DetectContentType sniff (Value.str s) = Except.ok "text/plain; charset=utf-8") ∧
    (∀ b, DetectContentType sniff (Value.bytes b) = Except.ok (sniff b)) ∧
    DetectContentType sniff (Value.int 42) = Except.error Panic.interfaceConversion ∧
    DetectContentType sniff Value.nil = Except.error Panic.interfaceConversion ∧
    DetectContentType sniff (Value.ptr (Value.struct [("Name", "resty")]))
      = Except.error Panic.interfaceConversion ∧
    (∀ body, (∃ ct, DetectContentType sniff body = Except.ok ct) ↔
      body.Kind = Kind.Struct ∨ body.Kind = Kind.Map ∨ body.Kind = Kind.String ∨
        body.Kind = Kind.Slice) := by
  refine ⟨fun _ => rfl, fun _ => rfl, fun _ => rfl, fun _ => rfl, rfl, rfl, rfl, ?_⟩
  intro body
  cases body <;> simp [DetectContentType, Value.Kind, assertBytes, Except.map]

/-! ## Claims about the mode and the middleware chains -/

/-- C13. `SetMode` selects redirect policy and body parsing together:
`SetHTTPMode`, that is `SetMode("http")`, sets the mode flag, installs
`FlexibleRedirectPolicy(10)` and makes the after-response chain exactly
`[responseLogger]`; `SetRESTMode`, that is `SetMode("rest")`, clears the flag,
installs `NoRedirectPolicy` and makes the after-response chain exactly
`[responseLogger, parseResponseBody]`. -/
theorem setMode_selects_policy_and_chain (b : Builtins) (c : Client) :
    (c.SetHTTPMode b = c.SetMode b "http" ∧
      (c.SetMode b "http").config.isHTTPMode = true ∧
      (c.SetMode b "http").config.CheckRedirect = some (FlexibleRedirectPolicy 10) ∧
      (c.SetMode b "http").afterResponse = [b.responseLogger]) ∧
    (c.SetRESTMode b = c.SetMode b "rest" ∧
      (c.SetMode b "rest").config.isHTTPMode = false ∧
      (c.SetMode b "rest").config.CheckRedirect = some NoRedirectPolicy ∧
      (c.SetMode b "rest").afterResponse = [b.responseLogger, b.parseResponseBody]) := by
  refine ⟨⟨rfl, ?_, ?_, ?_⟩, ⟨rfl, ?_, ?_, ?_⟩⟩ <;> simp [Client.SetMode]

theorem set_append_singleton {α : Type} (x m : α) :
    ∀ init : List α, (init ++ [x]).set init.length m = init ++ [m] := by
  intro init
  induction init with
  | nil => rfl
  | cons a init ih => simp [List.set, ih]

/-- On a chain with a last entry, `OnBeforeRequest` puts `m` in its place and
appends the request logger. -/
theorem onBeforeRequest_of_append (b : Builtins) (c : Client) (init : List RequestMiddleware)
    (last m : RequestMiddleware) (h : c.beforeRequest = init ++ [last]) :
    c.OnBeforeRequest b m
      = Except.ok { c with beforeRequest := init ++ [m, b.requestLogger] } := by
  have hlen : c.beforeRequest.length = init.length + 1 := by simp [h]
  have hidx : ((c.beforeRequest.length : Int) - 1) = (init.length : Int) := by
    rw [hlen]
    push_cast
    omega
  unfold Client.OnBeforeRequest
  simp only [hidx]
  have hguard : ¬ ((init.length : Int) < 0 ∨
      (init.length : Int) ≥ (c.beforeRequest.length : Int)) := by
    rw [hlen]
    push_cast
    omega
  rw [if_neg hguard]
  simp [h, set_append_singleton]

/-- C14. For every Client whose before-request chain ends with the built-in
request logger, `OnBeforeRequest(m)` yields the old chain without its last
entry, followed by `m`, followed by the request logger: the chain grows by
exactly one, the earlier entries keep their positions, and after any sequence
of registrations the user entries appear in registration order with the
logger last. -/
theorem onBeforeRequest_keeps_logger_last (b : Builtins) (c : Client)
    (init : List RequestMiddleware) (m : RequestMiddleware)
    (h : c.beforeRequest = init ++ [b.requestLogger]) :
    c.OnBeforeRequest b m
      = Except.ok { c with beforeRequest := init ++ [m, b.requestLogger] } ∧
    (init ++ [m, b.requestLogger]).length = c.beforeRequest.length + 1 ∧
    (∀ k, k < init.length → (init ++ [m, b.requestLogger])[k]? = c.beforeRequest[k]?) ∧
    (∀ ms, registerAll b c ms
      = Except.ok { c with beforeRequest := init ++ ms ++ [b.requestLogger] }) ∧
    (∀ ms, (init ++ ms ++ [b.requestLogger]).getLast? = some b.requestLogger) := by
  refine ⟨onBeforeRequest_of_append b c init b.requestLogger m h, by simp [h], ?_, ?_, ?_⟩
  · intro k hk
    rw [h, List.getElem?_append_left hk, List.getElem?_append_left hk]
  · intro ms
    induction ms generalizing c init with
    | nil =>
      simp only [registerAll, List.append_nil]
      rw [← h]
    | cons m' ms ih =>
      rw [registerAll, onBeforeRequest_of_append b c init b.requestLogger m' h]
      simp only
      rw [ih { c with beforeRequest := init ++ [m', b.requestLogger] } (init ++ [m'])
        (by simp)]
      simp
  · intro ms
    simp

/-- Two registrations on a client whose chain ends with the request logger. -/
theorem onBeforeRequest_keeps_logger_last_witness :
    loggingClient.beforeRequest = [renderEntry] ++ [sampleBuiltins.requestLogger] ∧
      registerAll sampleBuiltins loggingClient [failingEntry, renderEntry]
        = Except.ok { loggingClient with
            beforeRequest := [renderEntry] ++ [failingEntry, renderEntry]
              ++ [sampleBuiltins.requestLogger] } :=
  ⟨rfl, (onBeforeRequest_keeps_logger_last sampleBuiltins loggingClient [renderEntry]
    failingEntry rfl).2.2.2.1 [failingEntry, renderEntry]⟩

/-- C15, as stated, fails: on a Client whose before-request chain is empty,
`OnBeforeRequest` indexes the chain at `-1` and panics. -/
theorem onBeforeRequest_panics_on_empty_chain :
    bareClient.beforeRequest.length = 0 ∧
      bareClient.OnBeforeRequest sampleBuiltins renderEntry
        = Except.error (Panic.indexOutOfRange (-1) 0) := by
  constructor
  · rfl
  · rfl

/-- C15, amended. `OnBeforeRequest(m)` completes without an out-of-range
access exactly for the Clients whose before-request chain is not empty,
whatever its length, and its result then contains `m`, just before the
request logger. -/
theorem onBeforeRequest_ok_iff_nonempty (b : Builtins) (c : Client)
    (m : RequestMiddleware) :
    ((∃ c', c.OnBeforeRequest b m = Except.ok c') ↔ c.beforeRequest ≠ []) ∧
    (∀ c', c.OnBeforeRequest b m = Except.ok c' →
      m ∈ c'.beforeRequest ∧
      c'.beforeRequest.length = c.beforeRequest.length + 1 ∧
      c'.beforeRequest.getLast? = some b.requestLogger) := by
  rcases List.eq_nil_or_concat c.beforeRequest with hnil | ⟨init, last, hchain⟩
  · have hpanic : c.OnBeforeRequest b m = Except.error (Panic.indexOutOfRange (-1) 0) := by
      simp [Client.OnBeforeRequest, hnil]
    rw [hpanic]
    refine ⟨⟨?_, fun h => absurd hnil h⟩, ?_⟩
    · rintro ⟨c', hc'⟩
      cases hc'
    · intro c' hc'
      cases hc'
  · have hchain' : c.beforeRequest = init ++ [last] := by
      rw [hchain, List.concat_eq_append]
    rw [onBeforeRequest_of_append b c init last m hchain']
    refine ⟨⟨fun _ => by simp [hchain'], fun _ => ⟨_, rfl⟩⟩, ?_⟩
    intro c' hc'
    injection hc' with hc'
    subst hc'
    simp [hchain']

/-- A registration on a chain of two entries. -/
theorem onBeforeRequest_ok_iff_nonempty_witness :
    loggingClient.beforeRequest ≠ [] ∧
      ∃ c', loggingClient.OnBeforeRequest sampleBuiltins failingEntry = Except.ok c' :=
  have h : loggingClient.beforeRequest ≠ [] := by simp [loggingClient]
  ⟨h, (onBeforeRequest_ok_iff_nonempty sampleBuiltins loggingClient failingEntry).1.2 h⟩

/-- C16, as stated, fails: an entry registered with `OnAfterResponse` is no
longer in the after-response chain after `SetMode`, in either mode. -/
theorem setMode_drops_registered_entry :
    userEntry ∈ (quietClient.OnAfterResponse userEntry).afterResponse ∧
      userEntry ∉ ((quietClient.OnAfterResponse userEntry).SetMode sampleBuiltins
        "rest").afterResponse ∧
      userEntry ∉ ((quietClient.OnAfterResponse userEntry).SetMode sampleBuiltins
        "http").afterResponse := by
  have hne : userEntry ≠ (fun s => (s, none) : ResponseMiddleware) := by
    intro h
    have := congrFun h (sampleConfig, sampleResponse)
    simp [userEntry] at this
  refine ⟨by simp [Client.OnAfterResponse], ?_, ?_⟩
  · simp [Client.SetMode, sampleBuiltins, hne]
  · simp [Client.SetMode, sampleBuiltins, hne]

/-- C16, amended. `SetMode` replaces the after-response chain by the built-in
entries of the selected mode, so after `OnAfterResponse(m)` followed by
`SetMode(mode)` the chain is exactly those built-in entries and the
registration of `m` is gone; `m` is in the chain, after the built-in entries,
when it is registered after `SetMode`. `SetMode` leaves the host, headers,
query parameters, form data, cookies, credentials and the before-request
chain unchanged. -/
theorem setMode_replaces_afterResponse_chain (b : Builtins) (c : Client) (mode : String)
    (m : ResponseMiddleware) :
    ((c.OnAfterResponse m).SetMode b mode).afterResponse
      = (if mode = "http" then [b.responseLogger]
          else [b.responseLogger, b.parseResponseBody]) ∧
    ((c.SetMode b mode).OnAfterResponse m).afterResponse
      = (if mode = "http" then [b.responseLogger]
          else [b.responseLogger, b.parseResponseBody]) ++ [m] ∧
    ((c.SetMode b mode).config.HostUrl = c.config.HostUrl ∧
      (c.SetMode b mode).config.Header = c.config.Header ∧
      (c.SetMode b mode).config.QueryParam = c.config.QueryParam ∧
      (c.SetMode b mode).config.FormData = c.config.FormData ∧
      (c.SetMode b mode).config.Cookies = c.config.Cookies ∧
      (c.SetMode b mode).config.UserInfo = c.config.UserInfo ∧
      (c.SetMode b mode).config.Token = c.config.Token ∧
      (c.SetMode b mode).beforeRequest = c.beforeRequest) := by
  by_cases h : mode = "http"
  · simp [Client.SetMode, Client.OnAfterResponse, h]
  · simp [Client.SetMode, Client.OnAfterResponse, h]

/-! ## Claims about the parameter stores -/

theorem valuesAt_assign_same (key : String) (vs : List String) :
    ∀ v : Values, valuesAt (assign v key vs) key = vs := by
  intro v
  induction v with
  | nil => simp [assign, valuesAt]
  | cons kv rest ih =>
    obtain ⟨k, old⟩ := kv
    by_cases hk : k = key
    · simp [assign, valuesAt, hk]
    · simp [assign, valuesAt, hk, ih]

theorem valuesAt_assign_other (key key' : String) (vs : List String) (h : key' ≠ key) :
    ∀ v : Values, valuesAt (assign v key vs) key' = valuesAt v key' := by
  intro v
  induction v with
  | nil =>
    simp [assign, valuesAt, Ne.symm h]
  | cons kv rest ih =>
    obtain ⟨k, old⟩ := kv
    by_cases hk : k = key
    · subst hk
      simp [assign, valuesAt, Ne.symm h]
    · by_cases hk' : k = key'
      · subst hk'
        simp [assign, valuesAt, hk]
      · simp [assign, valuesAt, hk, hk', ih]

theorem valuesAt_Add_same (v : Values) (key value : String) :
    valuesAt (Values.Add v key value) key = valuesAt v key ++ [value] :=
  valuesAt_assign_same key _ v

theorem valuesAt_Add_other (v : Values) (key key' value : String) (h : key' ≠ key) :
    valuesAt (Values.Add v key value) key' = valuesAt v key' :=
  valuesAt_assign_other key key' _ h v

theorem valuesAt_Set_same (v : Values) (key value : String) :
    valuesAt (Values.Set v key value) key = [value] :=
  valuesAt_assign_same key _ v

theorem valuesAt_Set_other (v : Values) (key key' value : String) (h : key' ≠ key) :
    valuesAt (Values.Set v key value) key' = valuesAt v key' :=
  valuesAt_assign_other key key' _ h v

theorem valuesAt_addAll_other (key' : String) :
    ∀ (data : List (String × String)) (v : Values), key' ∉ data.map Prod.fst →
      valuesAt (addAll v data) key' = valuesAt v key' := by
  intro data
  induction data with
  | nil =>
    intro v _
    rfl
  | cons kv data ih =>
    intro v h
    simp only [List.map_cons, List.mem_cons, not_or] at h
    show valuesAt (addAll (Values.Add v kv.1 kv.2) data) key' = _
    rw [ih (Values.Add v kv.1 kv.2) h.2, valuesAt_Add_other v kv.1 key' kv.2 h.1]

theorem valuesAt_addAll_mem :
    ∀ (data : List (String × String)) (v : Values), (data.map Prod.fst).Nodup →
      ∀ kv, kv ∈ data → valuesAt (addAll v data) kv.1 = valuesAt v kv.1 ++ [kv.2] := by
  intro data
  induction data with
  | nil =>
    intro v _ kv hkv
    cases hkv
  | cons kv' data ih =>
    intro v hnodup kv hkv
    simp only [List.map_cons, List.nodup_cons] at hnodup
    show valuesAt (addAll (Values.Add v kv'.1 kv'.2) data) kv.1 = _
    rcases List.mem_cons.1 hkv with rfl | hmem
    · rw [valuesAt_addAll_other kv.1 data _ hnodup.1, valuesAt_Add_same]
    · have hne : kv.1 ≠ kv'.1 := by
        intro heq
        exact hnodup.1 (heq ▸ List.mem_map_of_mem Prod.fst hmem)
      rw [ih (Values.Add v kv'.1 kv'.2) hnodup.2 kv hmem,
        valuesAt_Add_other v kv'.1 kv.1 kv'.2 hne]

theorem client_SetQueryParams_eq (data : List (String × String)) :
    ∀ c : Client,
      (c.SetQueryParams data).config.QueryParam = addAll c.config.QueryParam data := by
  induction data with
  | nil =>
    intro c
    rfl
  | cons kv data ih =>
    intro c
    exact ih _

theorem client_SetFormData_eq (data : List (String × String)) :
    ∀ c : Client, (c.SetFormData data).config.FormData = addAll c.config.FormData data := by
  induction data with
  | nil =>
    intro c
    rfl
  | cons kv data ih =>
    intro c
    exact ih _

theorem request_SetQueryParams_eq (data : List (String × String)) :
    ∀ r : Request, (r.SetQueryParams data).QueryParam = addAll r.QueryParam data := by
  induction data with
  | nil =>
    intro r
    rfl
  | cons kv data ih =>
    intro r
    exact ih _

theorem request_SetFormData_eq (data : List (String × String)) :
    ∀ r : Request, (r.SetFormData data).FormData = addAll r.FormData data := by
  induction data with
  | nil =>
    intro r
    rfl
  | cons kv data ih =>
    intro r
    exact ih _

theorem valuesAt_addAll (key : String) :
    ∀ (data : List (String × String)) (v : Values),
      valuesAt (addAll v data) key
        = valuesAt v key ++ (data.filter (fun kv => kv.1 = key)).map Prod.snd := by
  intro data
  induction data with
  | nil =>
    intro v
    simp [addAll]
  | cons kv data ih =>
    intro v
    show valuesAt (addAll (Values.Add v kv.1 kv.2) data) key = _
    rw [ih (Values.Add v kv.1 kv.2)]
    by_cases hk : kv.1 = key
    · subst hk
      rw [valuesAt_Add_same]
      simp
    · rw [valuesAt_Add_other v kv.1 key kv.2 (Ne.symm hk)]
      simp [hk]

theorem request_SetFormData_isMultiPart (data : List (String × String)) :
    ∀ r : Request, (r.SetFormData data).isMultiPart = r.isMultiPart := by
  induction data with
  | nil =>
    intro r
    rfl
  | cons kv data ih =>
    intro r
    exact ih _

/-- C17. Query and form parameters are additive and multi-valued at Client
and at Request level: `SetQueryParam(k, v1)` followed by `SetQueryParam(k, v2)`
leaves the value list of `k` equal to its previous list followed by `v1` then
`v2` and the value lists of all other keys unchanged; `SetQueryParams` and
`SetFormData` append, for each entry of their map, the entry's value to the
value list of the entry's key and leave the keys outside the map unchanged. -/
theorem query_and_form_params_are_additive (c : Client) (r : Request) (k v1 v2 : String)
    (data : List (String × String)) (hdata : (data.map Prod.fst).Nodup) :
    (valuesAt ((c.SetQueryParam k v1).SetQueryParam k v2).config.QueryParam k
        = valuesAt c.config.QueryParam k ++ [v1, v2] ∧
      ∀ k', k' ≠ k →
        valuesAt ((c.SetQueryParam k v1).SetQueryParam k v2).config.QueryParam k'
          = valuesAt c.config.QueryParam k') ∧
    (valuesAt ((r.SetQueryParam k v1).SetQueryParam k v2).QueryParam k
        = valuesAt r.QueryParam k ++ [v1, v2] ∧
      ∀ k', k' ≠ k →
        valuesAt ((r.SetQueryParam k v1).SetQueryParam k v2).QueryParam k'
          = valuesAt r.QueryParam k') ∧
    ((∀ kv, kv ∈ data →
        valuesAt (c.SetQueryParams data).config.QueryParam kv.1
          = valuesAt c.config.QueryParam kv.1 ++ [kv.2]) ∧
      ∀ k', k' ∉ data.map Prod.fst →
        valuesAt (c.SetQueryParams data).config.QueryParam k'
          = valuesAt c.config.QueryParam k') ∧
    ((∀ kv, kv ∈ data →
        valuesAt (r.SetQueryParams data).QueryParam kv.1
          = valuesAt r.QueryParam kv.1 ++ [kv.2]) ∧
      ∀ k', k' ∉ data.map Prod.fst →
        valuesAt (r.SetQueryParams data).QueryParam k' = valuesAt r.QueryParam k') ∧
    ((∀ kv, kv ∈ data →
        valuesAt (c.SetFormData data).config.FormData kv.1
          = valuesAt c.config.FormData kv.1 ++ [kv.2]) ∧
      ∀ k', k' ∉ data.map Prod.fst →
        valuesAt (c.SetFormData data).config.FormData k' = valuesAt c.config.FormData k') ∧
    ((∀ kv, kv ∈ data →
        valuesAt (r.SetFormData data).FormData kv.1 = valuesAt r.FormData kv.1 ++ [kv.2]) ∧
      ∀ k', k' ∉ data.map Prod.fst →
        valuesAt (r.SetFormData data).FormData k' = valuesAt r.FormData k') ∧
    (valuesAt ((c.SetFormData [(k, v1)]).SetFormData [(k, v2)]).config.FormData k
        = valuesAt c.config.FormData k ++ [v1, v2] ∧
      valuesAt ((r.SetFormData [(k, v1)]).SetFormData [(k, v2)]).FormData k
        = valuesAt r.FormData k ++ [v1, v2]) := by
  refine ⟨⟨?_, ?_⟩, ⟨?_, ?_⟩, ⟨?_, ?_⟩, ⟨?_, ?_⟩, ⟨?_, ?_⟩, ⟨?_, ?_⟩, ⟨?_, ?_⟩⟩
  · simp [Client.SetQueryParam, valuesAt_Add_same]
  · intro k' hk'
    simp [Client.SetQueryParam, valuesAt_Add_other _ k k' _ hk']
  · simp [Request.SetQueryParam, valuesAt_Add_same]
  · intro k' hk'
    simp [Request.SetQueryParam, valuesAt_Add_other _ k k' _ hk']
  · intro kv hkv
    rw [client_SetQueryParams_eq]
    exact valuesAt_addAll_mem data _ hdata kv hkv
  · intro k' hk'
    rw [client_SetQueryParams_eq]
    exact valuesAt_addAll_other k' data _ hk'
  · intro kv hkv
    rw [request_SetQueryParams_eq]
    exact valuesAt_addAll_mem data _ hdata kv hkv
  · intro k' hk'
    rw [request_SetQueryParams_eq]
    exact valuesAt_addAll_other k' data _ hk'
  · intro kv hkv
    rw [client_SetFormData_eq]
    exact valuesAt_addAll_mem data _ hdata kv hkv
  · intro k' hk'
    rw [client_SetFormData_eq]
    exact valuesAt_addAll_other k' data _ hk'
  · intro kv hkv
    rw [request_SetFormData_eq]
    exact valuesAt_addAll_mem data _ hdata kv hkv
  · intro k' hk'
    rw [request_SetFormData_eq]
    exact valuesAt_addAll_other k' data _ hk'
  · simp [Client.SetFormData, valuesAt_Add_same]
  · simp [Request.SetFormData, valuesAt_Add_same]

/-- Two values under `page`, then a map with the keys `a` and `b`. -/
theorem query_and_form_params_are_additive_witness :
    ([("a", "1"), ("b", "2")].map Prod.fst).Nodup ∧
      valuesAt ((sampleRequest.SetQueryParam "page" "1").SetQueryParam "page" "2").QueryParam
        "page" = ["1", "2"] ∧
      valuesAt (sampleUpload.SetFormData [("a", "1"), ("b", "2")]).FormData "b" = ["2"] ∧
      valuesAt (sampleUpload.SetFormData [("a", "1"), ("b", "2")]).FormData "@doc"
        = ["/tmp/a"] :=
  have h : ([("a", "1"), ("b", "2")].map Prod.fst).Nodup := by decide
  have t := query_and_form_params_are_additive quietClient sampleRequest "page" "1" "2"
    [("a", "1"), ("b", "2")] h
  have u := query_and_form_params_are_additive quietClient sampleUpload "page" "1" "2"
    [("a", "1"), ("b", "2")] h
  ⟨h, t.2.1.1, u.2.2.2.2.2.1.1 ("b", "2") (by simp),
    u.2.2.2.2.2.1.2 "@doc" (by decide)⟩

/-- C18, as stated, fails: a form map with the key `@doc` writes to the key
of the file field `doc`. After `SetFile` the form field extends the file
field, and before `SetFile` it is overwritten by it. -/
theorem setFormData_writes_to_file_key :
    valuesAt (sampleRequest.SetFile "doc" "/tmp/a").FormData "@doc" = ["/tmp/a"] ∧
      valuesAt ((sampleRequest.SetFile "doc" "/tmp/a").SetFormData [("@doc", "x")]).FormData
        "@doc" = ["/tmp/a", "x"] ∧
      valuesAt (sampleRequest.SetFormData [("@doc", "x")]).FormData "@doc" = ["x"] ∧
      valuesAt ((sampleRequest.SetFormData [("@doc", "x")]).SetFile "doc" "/tmp/a").FormData
        "@doc" = ["/tmp/a"] := by
  decide

/-- C18, amended. For every field name `f`, path `p` and form map that has no
key `"@" + f`, `SetFile(f, p)` marks the Request multipart and stores `p`
alone under the key `"@" + f`; `SetFormData` with that map, before or after
`SetFile`, leaves exactly `p` under that key, and `SetFile` leaves the value
lists of all other keys as `SetFormData` made them. -/
theorem file_field_apart_from_other_keys (r : Request) (f p : String)
    (data : List (String × String)) (hkey : ("@" ++ f) ∉ data.map Prod.fst) :
    ((r.SetFile f p).isMultiPart = true ∧
      valuesAt (r.SetFile f p).FormData ("@" ++ f) = [p]) ∧
    (((r.SetFile f p).SetFormData data).isMultiPart = true ∧
      valuesAt ((r.SetFile f p).SetFormData data).FormData ("@" ++ f) = [p]) ∧
    (((r.SetFormData data).SetFile f p).isMultiPart = true ∧
      valuesAt ((r.SetFormData data).SetFile f p).FormData ("@" ++ f) = [p]) ∧
    (∀ k, k ≠ "@" ++ f →
      valuesAt ((r.SetFormData data).SetFile f p).FormData k
          = valuesAt (r.SetFormData data).FormData k ∧
        valuesAt ((r.SetFile f p).SetFormData data).FormData k
          = valuesAt (r.SetFormData data).FormData k) ∧
    ((r.SetFiles [(f, p)]).FormData = (r.SetFile f p).FormData ∧
      (r.SetFiles [(f, p)]).isMultiPart = true) := by
  refine ⟨⟨rfl, ?_⟩, ⟨?_, ?_⟩, ⟨rfl, ?_⟩, ?_, ⟨rfl, rfl⟩⟩
  · exact valuesAt_Set_same _ _ _
  · rw [request_SetFormData_isMultiPart]
    rfl
  · rw [request_SetFormData_eq, valuesAt_addAll_other _ data _ hkey]
    exact valuesAt_Set_same _ _ _
  · exact valuesAt_Set_same _ _ _
  · intro k hk
    constructor
    · exact valuesAt_Set_other _ _ _ _ hk
    · rw [request_SetFormData_eq, request_SetFormData_eq, valuesAt_addAll, valuesAt_addAll]
      congr 1
      exact valuesAt_Set_other _ _ _ _ hk

/-- A file field `doc` and a form map with the keys `a` and `b`. -/
theorem file_field_apart_from_other_keys_witness :
    ("@" ++ "doc") ∉ [("a", "1"), ("b", "2")].map Prod.fst ∧
      valuesAt ((sampleRequest.SetFile "doc" "/tmp/a").SetFormData
        [("a", "1"), ("b", "2")]).FormData ("@" ++ "doc") = ["/tmp/a"] ∧
      valuesAt ((sampleRequest.SetFormData [("a", "1"), ("b", "2")]).SetFile "doc"
        "/tmp/a").FormData ("@" ++ "doc") = ["/tmp/a"] :=
  have h : ("@" ++ "doc") ∉ [("a", "1"), ("b", "2")].map Prod.fst := by decide
  have t := file_field_apart_from_other_keys sampleRequest "doc" "/tmp/a"
    [("a", "1"), ("b", "2")] h
  ⟨h, t.2.1.2, t.2.2.1.2⟩

/-- C19, on the code. `Request.SetContentLength(l)` sets the content-length
flag of the Request to true whatever `l` is, so `SetContentLength(false)`
makes it true, while `Client.SetContentLength(l)` sets the Client's flag to
`l`; no other field of the Request changes. -/
theorem request_setContentLength_ignores_argument (r : Request) (c : Client) (l : Bool) :
    (r.SetContentLength l).setContentLength = true ∧
    r.SetContentLength l = { r with setContentLength := true } ∧
    (c.SetContentLength l).config.setContentLength = l ∧
    (sampleRequest.setContentLength = false ∧
      (sampleRequest.SetContentLength false).setContentLength = true ∧
      (quietClient.SetContentLength false).config.setContentLength = false) :=
  ⟨rfl, rfl, rfl, rfl, rfl, rfl⟩

/-! ## Claims about reusing a `Request` -/

/-- A part of the Request that no middleware entry writes to, and that does
not depend on the dispatch time, is the same after `Client.execute`. -/
theorem execute_req_preserves {α : Type} (φ : Request → α)
    (hTime : ∀ (r : Request) (t : Nat), φ { r with Time := t } = φ r)
    (w : World) (c : Client) (req : Request)
    (hb : ∀ f, f ∈ c.beforeRequest → ∀ s, φ (f s).1.2 = φ s.2)
    (ha : ∀ f, f ∈ c.afterResponse → ∀ s, φ (f s).1.2.Request = φ s.2.Request) :
    φ (c.execute w req).req = φ req := by
  have hprep : ∀ k, φ (stateAfter c.beforeRequest k (c.config, req)).2 = φ req :=
    fun k => stateAfter_preserves (fun s : ClientConfig × Request => φ s.2)
      c.beforeRequest hb k (c.config, req)
  have hsent : φ (sentRequest w c req) = φ req := by
    unfold sentRequest preparedState
    rw [hTime]
    exact hprep _
  have hafter : ∀ raw body k,
      φ (stateAfter c.afterResponse k (repliedState w c req raw body)).2.Request = φ req := by
    intro raw body k
    rw [stateAfter_preserves (fun s : ClientConfig × Response => φ s.2.Request)
      c.afterResponse ha k (repliedState w c req raw body)]
    exact hsent
  rcases chain_cases c.beforeRequest (c.config, req) with hbefore | ⟨i, e, hfail⟩
  · cases hsend : transportResult w c req with
    | error e =>
      rw [execute_of_transportError w c req e hbefore hsend]
      exact hsent
    | ok raw =>
      cases hread : raw.Body with
      | error e =>
        rw [execute_of_readError w c req raw e hbefore hsend hread]
        exact hsent
      | ok body =>
        rcases chain_cases c.afterResponse (repliedState w c req raw body) with
          hall | ⟨j, e, hfail⟩
        · rw [execute_of_success w c req raw body hbefore hsend hread hall]
          exact hafter raw body _
        · rw [execute_of_afterFailure w c req raw body j e hbefore hsend hread hfail]
          exact hafter raw body _
  · rw [execute_of_beforeFailure w c req i e hfail]
    exact hprep _

/-- C20, as stated, fails: after `Get` on a Request, `Post` on the same
Request with another URL changes `Method` and `Url` and goes through
`Client.execute`, transport call included, a second time. -/
theorem second_verb_invocation_executes_again :
    (firstCall.req.Method = "GET" ∧ firstCall.req.Url = "http://localhost/a" ∧
      Event.transport ∈ firstCall.trace) ∧
    (secondCall.req.Method = "POST" ∧ secondCall.req.Url = "http://localhost/b" ∧
      secondCall.trace
        = [Event.before 0, Event.transport, Event.readBody, Event.after 0]) := by
  decide

/-- C20, amended. A Request is not one-shot: on every Request, whatever verb
methods were invoked on it before, a verb invocation that passes the
multipart guard sets `Method` and `Url` to its own arguments and goes through
`Client.execute` with them, which enters a middleware entry or calls the
transport; when no middleware entry writes to `Method` or `Url`, the Request
is left with the `Method` and `Url` of this invocation. -/
theorem verb_invocation_sets_method_and_executes (w : World) (c : Client) (r : Request)
    (method url : String)
    (hguard : r.isMultiPart = false ∨ method = POST ∨ method = PUT) :
    r.execute w c method url = c.execute w { r with Method := method, Url := url } ∧
    (r.execute w c method url).trace ≠ [] ∧
    ((∀ f, f ∈ c.beforeRequest → ∀ s, (f s).1.2.Method = s.2.Method ∧ (f s).1.2.Url = s.2.Url) →
      (∀ f, f ∈ c.afterResponse → ∀ s,
        (f s).1.2.Request.Method = s.2.Request.Method ∧
          (f s).1.2.Request.Url = s.2.Request.Url) →
      (r.execute w c method url).req.Method = method ∧
        (r.execute w c method url).req.Url = url) := by
  have hexec : r.execute w c method url
      = c.execute w { r with Method := method, Url := url } := by
    rcases hguard with h | h | h
    · simp [Request.execute, h]
    · simp [Request.execute, h]
    · simp [Request.execute, h]
  rw [hexec]
  refine ⟨rfl, execute_trace_ne_nil w c _, fun hb ha => ⟨?_, ?_⟩⟩
  · exact execute_req_preserves (fun q => q.Method) (fun _ _ => rfl) w c _
      (fun f hf s => (hb f hf s).1) (fun f hf s => (ha f hf s).1)
  · exact execute_req_preserves (fun q => q.Url) (fun _ _ => rfl) w c _
      (fun f hf s => (hb f hf s).2) (fun f hf s => (ha f hf s).2)

/-- The second invocation of the example: `Post` on the Request that `Get`
left. -/
theorem verb_invocation_sets_method_and_executes_witness :
    (firstCall.req.isMultiPart = false ∨ POST = POST ∨ POST = PUT) ∧
      secondCall
        = Client.execute sampleWorld { quietClient with config := firstCall.client }
            { firstCall.req with Method := POST, Url := "http://localhost/b" } ∧
      secondCall.trace ≠ [] :=
  have h : firstCall.req.isMultiPart = false ∨ POST = POST ∨ POST = PUT := Or.inr (Or.inl rfl)
  have t := verb_invocation_sets_method_and_executes sampleWorld
    { quietClient with config := firstCall.client } firstCall.req POST "http://localhost/b" h
  ⟨h, t.1, t.2.1⟩

/-! ## Claims about the mode, once more -/

/-- C21. `SetMode` falls back to rest mode for every mode string other than
exactly `http`: for all such strings, `raw`, `HTTP` and the empty string
included, the Client it yields is the one `SetMode("rest")` yields, which
differs from the one `SetMode("http")` yields; and applying the same mode
twice yields the same Client as applying it once. -/
theorem setMode_falls_back_to_rest (b : Builtins) (c : Client) (mode : String) :
    (mode ≠ "http" → c.SetMode b mode = c.SetMode b "rest") ∧
    (c.SetMode b "raw" = c.SetMode b "rest" ∧
      c.SetMode b "HTTP" = c.SetMode b "rest" ∧
      c.SetMode b "" = c.SetMode b "rest") ∧
    c.SetMode b "http" ≠ c.SetMode b "rest" ∧
    (c.SetMode b mode).SetMode b mode = c.SetMode b mode := by
  refine ⟨fun h => ?_, ⟨?_, ?_, ?_⟩, ?_, ?_⟩
  · simp [Client.SetMode, h]
  · simp [Client.SetMode]
  · simp [Client.SetMode]
  · simp [Client.SetMode]
  · intro h
    have := congrArg (fun x : Client => x.config.isHTTPMode) h
    simp [Client.SetMode] at this
  · by_cases h : mode = "http"
    · simp [Client.SetMode, h]
    · simp [Client.SetMode, h]

/-- The mode `raw` on a client with a registered chain. -/
theorem setMode_falls_back_to_rest_witness :
    "raw" ≠ "http" ∧
      loggingClient.SetMode sampleBuiltins "raw" = loggingClient.SetMode sampleBuiltins "rest" :=
  ⟨by decide, (setMode_falls_back_to_rest sampleBuiltins loggingClient "raw").1 (by decide)⟩

/-! ## Claims about the debug rendering of a request body -/

/-- C22. `getRequestBodyString` renders a body only in narrow cases: for every
Request whose method is not POST, PUT or PATCH it returns the placeholder
`***** NO CONTENT *****` whatever `Body` is; for a POST, PUT or PATCH request
that is neither multipart nor form data and whose `Content-Type` is not
classified as JSON, a string `Body` also gives the placeholder, and a
byte-slice `Body` gives its standard base64 encoding. -/
theorem getRequestBodyString_narrow_cases (rd : Renderers) (r : Request) :
    (r.Method ≠ POST → r.Method ≠ PUT → r.Method ≠ PATCH →
      getRequestBodyString rd r = Except.ok "***** NO CONTENT *****") ∧
    (r.Method = POST ∨ r.Method = PUT ∨ r.Method = PATCH →
      r.isMultiPart = false → r.isFormData = false →
      IsJsonType (headerGet r.Header "Content-Type") = false →
      (∀ s, r.Body = Value.str s →
        getRequestBodyString rd r = Except.ok "***** NO CONTENT *****") ∧
      (∀ b, r.Body = Value.bytes b →
        getRequestBodyString rd r = Except.ok (rd.base64 b))) := by
  refine ⟨fun h₁ h₂ h₃ => ?_, fun hm hmp hfd hct => ⟨fun s hs => ?_, fun b hb => ?_⟩⟩
  · simp [getRequestBodyString, h₁, h₂, h₃]
  · simp [getRequestBodyString, hm, hmp, hfd, hs, hdrContentTypeKey, hct, IsMarshalRequired,
      Value.Kind]
  · simp [getRequestBodyString, hm, hmp, hfd, hb, hdrContentTypeKey, hct, IsMarshalRequired,
      Value.Kind]

/-- A `GET` with a body, a `POST` of text and a `POST` of bytes. -/
theorem getRequestBodyString_narrow_cases_witness :
    getRequestBodyString sampleRenderers { bytesPost with Method := "GET" }
        = Except.ok "***** NO CONTENT *****" ∧
      getRequestBodyString sampleRenderers textPost = Except.ok "***** NO CONTENT *****" ∧
      getRequestBodyString sampleRenderers bytesPost = Except.ok "b2s=" :=
  ⟨(getRequestBodyString_narrow_cases sampleRenderers { bytesPost with Method := "GET" }).1
      (by decide) (by decide) (by decide),
    ((getRequestBodyString_narrow_cases sampleRenderers textPost).2 (Or.inl rfl) rfl rfl
      (by decide)).1 "ok" rfl,
    ((getRequestBodyString_narrow_cases sampleRenderers bytesPost).2 (Or.inl rfl) rfl rfl
      (by decide)).2 [111, 107] rfl⟩

/-! ## Claims about the federated `deleteRepo` -/

theorem lastIndexBelow_bounds (s substr : List Char) :
    ∀ n : Nat, -1 ≤ lastIndexBelow s substr n ∧ lastIndexBelow s substr n < (n : Int) := by
  intro n
  induction n with
  | zero => simp [lastIndexBelow]
  | succ n ih =>
    unfold lastIndexBelow
    split
    · constructor <;> push_cast <;> omega
    · constructor
      · exact ih.1
      · push_cast
        omega

theorem lastIndexBelow_eq_of_last (s substr : List Char) (i : Nat)
    (hp : substr.isPrefixOf (s.drop i) = true) :
    ∀ n : Nat, i < n →
      (∀ j, i < j → j < n → substr.isPrefixOf (s.drop j) = false) →
      lastIndexBelow s substr n = (i : Int) := by
  intro n
  induction n with
  | zero =>
    intro hi
    exact absurd hi (Nat.not_lt_zero i)
  | succ n ih =>
    intro hi hlast
    unfold lastIndexBelow
    by_cases hin : i = n
    · subst hin
      rw [if_pos hp]
    · have hlt : i < n := by omega
      rw [if_neg (by rw [hlast n hlt (Nat.lt_succ_self n)]; simp)]
      exact ih hlt (fun j hij hjn => hlast j hij (Nat.lt_succ_of_lt hjn))

theorem lastIndexBelow_eq_neg_one (s substr : List Char) :
    ∀ n : Nat, (∀ j, j < n → substr.isPrefixOf (s.drop j) = false) →
      lastIndexBelow s substr n = -1 := by
  intro n
  induction n with
  | zero =>
    intro _
    rfl
  | succ n ih =>
    intro h
    unfold lastIndexBelow
    rw [if_neg (by rw [h n (Nat.lt_succ_self n)]; simp)]
    exact ih (fun j hj => h j (Nat.lt_succ_of_lt hj))

/-- A string that starts with `c` can only match where the subject has `c`. -/
theorem getElem?_of_isPrefixOf_cons (c : Char) (rest s : List Char) (j : Nat)
    (h : (c :: rest).isPrefixOf (s.drop j) = true) : s[j]? = some c := by
  rw [← List.head?_drop]
  cases hd : s.drop j with
  | nil =>
    rw [hd] at h
    simp at h
  | cons d t =>
    rw [hd] at h
    simp only [List.isPrefixOf, Bool.and_eq_true, beq_iff_eq] at h
    simp [h.1]

/-- In `B + "/artifactory/" + K`, with no slash in `K`, the only slash after
position `len(B)` is the one before `K`. -/
theorem slash_after_base (B K : List Char) (hslash : '/' ∉ K) (j : Nat) (hj : B.length < j)
    (h : (B ++ "/artifactory/".toList ++ K)[j]? = some '/') : j = B.length + 12 := by
  rw [List.append_assoc, List.getElem?_append_right (Nat.le_of_lt hj)] at h
  by_cases hk : j - B.length < 13
  · rw [List.getElem?_append_left (by simpa using hk)] at h
    have hpos : 1 ≤ j - B.length := by omega
    have hcases : ∀ k : Fin 13, 1 ≤ k.val → "/artifactory/".toList[k.val]? = some '/' →
        k.val = 12 := by
      decide
    have := hcases ⟨j - B.length, hk⟩ hpos h
    simp only at this
    omega
  · rw [List.getElem?_append_right (by simpa using Nat.le_of_not_lt hk)] at h
    exact absurd (List.getElem?_mem h) hslash

theorem drop_member_url (B K : List Char) :
    (B ++ "/artifactory/".toList ++ K).drop (B.length + 12) = '/' :: K ∧
    (B ++ "/artifactory/".toList ++ K).drop (B.length + 13) = K ∧
    (B ++ "/artifactory/".toList ++ K).drop B.length = "/artifactory/".toList ++ K ∧
    (B ++ "/artifactory/".toList ++ K).take B.length = B ∧
    (B ++ "/artifactory/".toList ++ K).take (B.length + 12) = B ++ "/artifactory".toList := by
  refine ⟨?_, ?_, ?_, ?_, ?_⟩
  · rw [List.append_assoc, List.drop_append]
    rfl
  · rw [List.append_assoc, List.drop_append]
    rfl
  · rw [List.append_assoc, List.drop_left]
  · rw [List.append_assoc, List.take_left]
  · rw [List.append_assoc, List.take_append]
    rfl

theorem not_isPrefixOf_after_base (B K : List Char) (hslash : '/' ∉ K) (rest : List Char)
    (j : Nat) (hj : B.length < j) (hne : j ≠ B.length + 12) :
    ('/' :: rest).isPrefixOf ((B ++ "/artifactory/".toList ++ K).drop j) = false := by
  rw [Bool.eq_false_iff]
  intro h
  exact hne (slash_after_base B K hslash j hj (getElem?_of_isPrefixOf_cons '/' rest _ j h))

theorem length_member_url (B K : List Char) :
    (B ++ "/artifactory/".toList ++ K).length = B.length + 13 + K.length := by
  simp only [List.length_append]
  have : "/artifactory/".toList.length = 13 := by decide
  omega

/-- The last slash of `B + "/artifactory/" + K` is the one before `K`. -/
theorem lastIndexBelow_slash (B K : List Char) (hslash : '/' ∉ K) :
    lastIndexBelow (B ++ "/artifactory/".toList ++ K) ['/']
        ((B ++ "/artifactory/".toList ++ K).length + 1)
      = ((B.length + 12 : Nat) : Int) := by
  apply lastIndexBelow_eq_of_last
  · rw [(drop_member_url B K).1]
    simp [List.isPrefixOf]
  · rw [length_member_url]
    omega
  · intro j hj _
    exact not_isPrefixOf_after_base B K hslash [] j (by omega) (by omega)

/-- When `K` begins with `artifactory`, the last `/artifactory` of
`B + "/artifactory/" + K` is the slash before `K`. -/
theorem lastIndexBelow_artifactory_in_key (B K : List Char) (hslash : '/' ∉ K)
    (hkey : "artifactory".toList.isPrefixOf K = true) :
    lastIndexBelow (B ++ "/artifactory/".toList ++ K) "/artifactory".toList
        ((B ++ "/artifactory/".toList ++ K).length + 1)
      = ((B.length + 12 : Nat) : Int) := by
  apply lastIndexBelow_eq_of_last
  · rw [(drop_member_url B K).1]
    show ('/' :: "artifactory".toList).isPrefixOf ('/' :: K) = true
    simpa [List.isPrefixOf] using hkey
  · rw [length_member_url]
    omega
  · intro j hj _
    exact not_isPrefixOf_after_base B K hslash "artifactory".toList j (by omega) (by omega)

/-- When `K` does not begin with `artifactory`, the last `/artifactory` of
`B + "/artifactory/" + K` is the one after `B`. -/
theorem lastIndexBelow_artifactory_after_base (B K : List Char) (hslash : '/' ∉ K)
    (hkey : "artifactory".toList.isPrefixOf K = false) :
    lastIndexBelow (B ++ "/artifactory/".toList ++ K) "/artifactory".toList
        ((B ++ "/artifactory/".toList ++ K).length + 1)
      = (B.length : Int) := by
  apply lastIndexBelow_eq_of_last
  · rw [(drop_member_url B K).2.2.1]
    show ("/artifactory".toList).isPrefixOf ("/artifactory".toList ++ ('/' :: K)) = true
    rw [List.isPrefixOf_iff_prefix]
    exact List.prefix_append _ _
  · rw [length_member_url]
    omega
  · intro j hj _
    by_cases h12 : j = B.length + 12
    · subst h12
      rw [(drop_member_url B K).1]
      show ('/' :: "artifactory".toList).isPrefixOf ('/' :: K) = false
      simpa [List.isPrefixOf] using hkey
    · exact not_isPrefixOf_after_base B K hslash "artifactory".toList j hj h12

/-- A string without a slash has no instance of a string that starts with a
slash. -/
theorem lastIndexBelow_no_slash (s rest : List Char) (hslash : '/' ∉ s) (n : Nat) :
    lastIndexBelow s ('/' :: rest) n = -1 := by
  apply lastIndexBelow_eq_neg_one
  intro j _
  rw [Bool.eq_false_iff]
  intro h
  exact hslash (List.getElem?_mem (getElem?_of_isPrefixOf_cons '/' rest s j h))

/-- An instance of a non-empty string starts before the end of the subject. -/
theorem lastIndexBelow_lt_length (s : List Char) (c : Char) (rest : List Char) :
    lastIndexBelow s (c :: rest) (s.length + 1) < (s.length : Int) := by
  unfold lastIndexBelow
  rw [if_neg (by simp [List.isPrefixOf])]
  exact (lastIndexBelow_bounds s (c :: rest) s.length).2

theorem sliceFrom_ok (s : String) (n : Nat) (h : n ≤ s.toList.length) :
    sliceFrom s (n : Int) = Except.ok ⟨s.toList.drop n⟩ := by
  unfold sliceFrom
  rw [if_neg (by omega)]
  simp

theorem sliceTo_ok (s : String) (n : Nat) (h : n ≤ s.toList.length) :
    sliceTo s (n : Int) = Except.ok ⟨s.toList.take n⟩ := by
  unfold sliceTo
  rw [if_neg (by omega)]
  simp

theorem toList_member_url (B K : String) :
    (B ++ "/artifactory/" ++ K).toList = B.toList ++ "/artifactory/".toList ++ K.toList := by
  simp [String.toList]

/-- The cleanup loop never slices out of range. -/
theorem deleteRepo_target_total (memberUrl : String) :
    ∃ t, deleteRepo.target memberUrl = Except.ok t := by
  have hb₁ := lastIndexBelow_bounds memberUrl.toList ['/'] (memberUrl.toList.length + 1)
  have hl₁ := lastIndexBelow_lt_length memberUrl.toList '/' []
  have hb₂ := lastIndexBelow_bounds memberUrl.toList "/artifactory".toList
    (memberUrl.toList.length + 1)
  have hl₂ := lastIndexBelow_lt_length memberUrl.toList '/' "artifactory".toList
  obtain ⟨n, hn⟩ : ∃ n : Nat, LastIndex memberUrl "/" + 1 = (n : Int) :=
    ⟨(LastIndex memberUrl "/" + 1).toNat, by
      have : (0 : Int) ≤ LastIndex memberUrl "/" + 1 := by
        show (0 : Int) ≤ lastIndexBelow memberUrl.toList ['/'] _ + 1
        omega
      omega⟩
  have hnle : n ≤ memberUrl.toList.length := by
    have : LastIndex memberUrl "/" < (memberUrl.toList.length : Int) := hl₁
    omega
  unfold deleteRepo.target
  rw [hn, sliceFrom_ok memberUrl n hnle]
  simp only
  by_cases hidx : LastIndex memberUrl "/artifactory" = -1
  · rw [if_neg (by simpa using hidx)]
    exact ⟨_, rfl⟩
  · rw [if_pos hidx]
    obtain ⟨m, hm⟩ : ∃ m : Nat, LastIndex memberUrl "/artifactory" = (m : Int) :=
      ⟨(LastIndex memberUrl "/artifactory").toNat, by
        have : (-1 : Int) ≤ LastIndex memberUrl "/artifactory" := hb₂.1
        omega⟩
    have hmle : m ≤ memberUrl.toList.length := by
      have : LastIndex memberUrl "/artifactory" < (memberUrl.toList.length : Int) := hl₂
      omega
    rw [hm, sliceTo_ok memberUrl m hmle]
    exact ⟨_, rfl⟩

/-- C23, on the code. From a member URL `B + "/artifactory/" + K`, where the
repository key `K` contains no slash, the cleanup loop of `deleteRepo` derives
the repository key `K`; it derives the base URL `B` when `K` does not begin
with `artifactory`, and the base URL `B + "/artifactory"` when it does, as
for `https://host:8081/artifactory/artifactory-local`. For a member URL
without a slash the key and the base URL are the whole URL, and no slice is
out of range for any member URL. -/
theorem deleteRepo_target_of_member_url (B K : String) (hslash : '/' ∉ K.toList) :
    (¬ "artifactory".toList <+: K.toList →
      deleteRepo.target (B ++ "/artifactory/" ++ K)
        = Except.ok { memberUrl := B, repoName := K }) ∧
    ("artifactory".toList <+: K.toList →
      deleteRepo.target (B ++ "/artifactory/" ++ K)
        = Except.ok { memberUrl := B ++ "/artifactory", repoName := K }) ∧
    deleteRepo.target "https://host:8081/artifactory/artifactory-local"
      = Except.ok { memberUrl := "https://host:8081/artifactory",
                    repoName := "artifactory-local" } ∧
    (∀ memberUrl : String, '/' ∉ memberUrl.toList →
      deleteRepo.target memberUrl
        = Except.ok { memberUrl := memberUrl, repoName := memberUrl }) ∧
    (∀ memberUrl : String, ∃ t, deleteRepo.target memberUrl = Except.ok t) := by
  have hlist := toList_member_url B K
  have hlen : (B ++ "/artifactory/" ++ K).toList.length
      = B.toList.length + 13 + K.toList.length := by
    rw [hlist, length_member_url]
  have hrepo : sliceFrom (B ++ "/artifactory/" ++ K)
      (LastIndex (B ++ "/artifactory/" ++ K) "/" + 1) = Except.ok K := by
    have hlast : LastIndex (B ++ "/artifactory/" ++ K) "/" + 1
        = ((B.toList.length + 13 : Nat) : Int) := by
      unfold LastIndex
      rw [hlist]
      show lastIndexBelow _ ['/'] _ + 1 = _
      rw [lastIndexBelow_slash B.toList K.toList hslash]
      push_cast
      omega
    rw [hlast, sliceFrom_ok _ _ (by omega), hlist, (drop_member_url B.toList K.toList).2.1]
    rfl
  refine ⟨fun hkey => ?_, fun hkey => ?_, by rfl, fun memberUrl hno => ?_,
    deleteRepo_target_total⟩
  · have hidx : LastIndex (B ++ "/artifactory/" ++ K) "/artifactory"
        = (B.toList.length : Int) := by
      unfold LastIndex
      rw [hlist]
      exact lastIndexBelow_artifactory_after_base B.toList K.toList hslash
        (by rw [Bool.eq_false_iff, Ne, List.isPrefixOf_iff_prefix]; exact hkey)
    unfold deleteRepo.target
    rw [hrepo]
    simp only
    rw [hidx, if_pos (by omega), sliceTo_ok _ _ (by omega), hlist,
      (drop_member_url B.toList K.toList).2.2.2.1]
    rfl
  · have hidx : LastIndex (B ++ "/artifactory/" ++ K) "/artifactory"
        = ((B.toList.length + 12 : Nat) : Int) := by
      unfold LastIndex
      rw [hlist]
      exact lastIndexBelow_artifactory_in_key B.toList K.toList hslash
        (List.isPrefixOf_iff_prefix.2 hkey)
    unfold deleteRepo.target
    rw [hrepo]
    simp only
    rw [hidx, if_pos (by omega), sliceTo_ok _ _ (by omega), hlist,
      (drop_member_url B.toList K.toList).2.2.2.2]
    rfl
  · have h₁ : LastIndex memberUrl "/" = -1 :=
      lastIndexBelow_no_slash memberUrl.toList [] hno _
    have h₂ : LastIndex memberUrl "/artifactory" = -1 :=
      lastIndexBelow_no_slash memberUrl.toList "artifactory".toList hno _
    unfold deleteRepo.target
    rw [h₁, h₂]
    have h₀ : ((-1 : Int) + 1) = ((0 : Nat) : Int) := by decide
    rw [h₀, sliceFrom_ok memberUrl 0 (Nat.zero_le _)]
    simp

/-- A key that does not begin with `artifactory`, and one that does. -/
theorem deleteRepo_target_of_member_url_witness :
    '/' ∉ "libs-release".toList ∧ ¬ "artifactory".toList <+: "libs-release".toList ∧
      deleteRepo.target ("https://host:8081" ++ "/artifactory/" ++ "libs-release")
        = Except.ok { memberUrl := "https://host:8081", repoName := "libs-release" } ∧
      '/' ∉ "artifactory-local".toList ∧
      "artifactory".toList <+: "artifactory-local".toList ∧
      deleteRepo.target ("https://host:8081" ++ "/artifactory/" ++ "artifactory-local")
        = Except.ok { memberUrl := "https://host:8081" ++ "/artifactory",
                      repoName := "artifactory-local" } :=
  have h₁ : '/' ∉ "libs-release".toList := by decide
  have h₂ : ¬ "artifactory".toList <+: "libs-release".toList := by decide
  have h₃ : '/' ∉ "artifactory-local".toList := by decide
  have h₄ : "artifactory".toList <+: "artifactory-local".toList := by decide
  ⟨h₁, h₂, (deleteRepo_target_of_member_url "https://host:8081" "libs-release" h₁).1 h₂,
    h₃, h₄,
    (deleteRepo_target_of_member_url "https://host:8081" "artifactory-local" h₃).2.1 h₄⟩

end Resty
